import Mathlib

/-!
Verification of the docsmith conversion pipeline: content-type sniffing,
converter-error classification, temp-workspace lifecycle and cleanup, image
side-file disposal, and the tidy/minify HTML post-processing stage.

Documents are modelled post-parse as token streams (JSDOM parse/serialize is
treated as the identity on this representation); filesystem directories are
modelled as lists of file names. External collaborators (the file-type
sniffing library, htmltidy2, html-minifier-terser, the Fastify hook
scheduler) are modelled from the specification where noted; everything else
is a direct shallow embedding of the plugin and route sources.
-/

namespace Docsmith

/-- An HTTP error as surfaced by the service: a status code and a message. -/
structure HttpErr where
  statusCode : Nat
  message : String
deriving DecidableEq, Repr

/-- The http-errors UnsupportedMediaType() constructor called with no
argument, as in the route's content-type parser: generic message. -/
def unsupportedMediaType : HttpErr :=
  ⟨415, "Unsupported Media Type"⟩

/-- The sensible httpErrors.badRequest() call with no argument, as in the
rtf-to-html preHandler catch block: generic message. -/
def badRequestDefault : HttpErr :=
  ⟨400, "Bad Request"⟩

/-- The httpErrors.badRequest call in tidyHtml naming the offending
querystring field. -/
def badRequestLanguage : HttpErr :=
  ⟨400, "querystring.language not a valid IANA language tag"⟩

/-- A rethrown non-media-type converter error surfaced by the framework as a
500 response. -/
def internalServerError : HttpErr :=
  ⟨500, "Internal Server Error"⟩

/-- Modelled from the spec: the file-type library's magic-number sniffing,
independent of any client-declared header. It detects application/pdf
exactly when the payload begins with the PDF magic bytes 0x25 0x50 0x44 0x46,
and a PNG signature for illustration; anything else (including an empty
payload) is undetected. -/
def sniffMime (payload : List Nat) : Option String :=
  if payload.take 4 = [0x25, 0x50, 0x44, 0x46] then some "application/pdf"
  else if payload.take 4 = [0x89, 0x50, 0x4E, 0x47] then some "image/png"
  else none

/-- The application/pdf content-type parser registered by the pdf-to-txt
route: sniffs the buffer and throws UnsupportedMediaType() unless
application/pdf is detected (results undefined, mime undefined, or mime not
application/pdf all reject). -/
def pdfContentTypeParser (payload : List Nat) : Except HttpErr (List Nat) :=
  match sniffMime payload with
  | some m => if m = "application/pdf" then .ok payload else .error unsupportedMediaType
  | none => .error unsupportedMediaType

/-- Modelled from the spec: the HTTP layer runs the content-type parser
before the preHandler, so the sniff gate runs before the preHandler stages
any temp file; the Bool records whether a temp file was created. -/
def sniffThenStage (payload : List Nat) : Except HttpErr (List Nat) × Bool :=
  match pdfContentTypeParser payload with
  | .error e => (.error e, false)
  | .ok p => (.ok p, true)

/-- The substring the rtf-to-html preHandler catch block tests the thrown
converter error against. -/
def mediaTypeErrPattern : String :=
  "File is not the correct media type"

/-- The rtf-to-html preHandler catch block: a converter error whose text
matches the media-type pattern becomes httpErrors.badRequest(); any other
error is rethrown and surfaced by the framework as a 500. -/
def classifyConverterError (errMsg : String) : HttpErr :=
  if List.IsInfix mediaTypeErrPattern.data errMsg.data then badRequestDefault
  else internalServerError

/-- Outcome of one invocation of the external UnRTF converter. -/
inductive ConvOutcome
  | success (html : String)
  | failure (errMsg : String)
deriving DecidableEq, Repr

/-- The preHandler conversion step, threading a call counter through the
converter oracle: the converter is invoked exactly once and its failure, if
any, is classified by the catch block; there is no retry. -/
def runConversion (convert : Nat → ConvOutcome) (calls : Nat) :
    Except HttpErr String × Nat :=
  match convert calls with
  | .success h => (.ok h, calls + 1)
  | .failure m => (.error (classifyConverterError m), calls + 1)

/-- Result of the underlying fs.mkdir call on the temp directory: it fails
with code EEXIST when the directory already exists, and may fail with
another code (permissions and the like) given by osFailure. -/
def mkdirResult (dirExists : Bool) (osFailure : Option String) : Except String Unit :=
  match osFailure with
  | some code => .error code
  | none => if dirExists then .error "EEXIST" else .ok ()

/-- The rtf-to-html plugin's temp-directory creation: fs.mkdir wrapped in a
try/catch that ignores the EEXIST error code and rethrows anything else. -/
def ensureTempDir (dirExists : Bool) (osFailure : Option String) : Except String Unit :=
  match mkdirResult dirExists osFailure with
  | .ok _ => .ok ()
  | .error code => if code = "EEXIST" then .ok () else .error code

/-- Modelled from the spec: a plugin whose registration throws aborts
startup, so with a given number of inbound requests no conversion runs
unless the temp-directory creation succeeded. -/
def conversionsPerformed (dirExists : Bool) (osFailure : Option String)
    (requests : Nat) : Nat :=
  match ensureTempDir dirExists osFailure with
  | .ok _ => requests
  | .error _ => 0

/-- A directory state: the list of file names it contains. -/
abbrev FileSys := List String

/-- Character-level string prefix test (the semantics of a trailing-star glob
pattern on a file name). -/
def strIsPfxOf (p s : String) : Bool :=
  p.data.isPrefixOf s.data

/-- The glob of dir slash id-star in the onSend hook: the files of the temp
directory whose name begins with the request's id. -/
def globIdFiles (fs : FileSys) (docId : String) : List String :=
  fs.filter (fun f => strIsPfxOf docId f)

/-- Promise.all over fs.unlink calls, all issued against the same directory
state: fails with ENOENT when any target is missing, else removes them all. -/
def unlinkAll (fs : FileSys) (files : List String) : Except String FileSys :=
  if files.all (fun f => decide (f ∈ fs)) then
    .ok (fs.filter (fun g => decide (g ∉ files)))
  else .error "ENOENT"

/-- The fs.rm call with force set on image side-files: removes the target if
present; a missing target is not an error. -/
def rmForce (fs : FileSys) (f : String) : FileSys :=
  fs.filter (fun g => decide (g ≠ f))

/-- The docLocation record the preHandler decorates the request with. -/
structure DocLocation where
  directory : String
  docId : String
deriving DecidableEq, Repr

/-- The rtf-to-html onSend hook body: when a workspace was staged, glob the
id-prefixed files and unlink each, then hand the payload onward unchanged.
fsAtGlob and fsAtUnlink are the directory states seen by the glob and by the
unlink calls (equal unless something else removed a file in between). -/
def onSendHook (doc : Option DocLocation) (fsAtGlob fsAtUnlink : FileSys)
    (payload : List Nat) : Except String (FileSys × List Nat) :=
  match doc with
  | none => .ok (fsAtUnlink, payload)
  | some dl =>
    match unlinkAll fsAtUnlink (globIdFiles fsAtGlob dl.docId) with
    | .ok fs2 => .ok (fs2, payload)
    | .error e => .error e

/-- How a request run can end once a response body exists. -/
inductive ReqOutcome
  | completed
  | disconnected
  | handlerFailed
deriving DecidableEq, Repr

/-- Events of one request's lifecycle at the HTTP layer. -/
inductive ReqEvent
  | workspaceStaged
  | handedToTransport
  | onSendFired
deriving DecidableEq, Repr

/-- Modelled from the spec: the HTTP-layer collaborator contract fires the
onSend hook exactly once per request, after the response body is handed to
the transport layer, on every outcome including client disconnect and
handler failure. -/
def requestTrace (o : ReqOutcome) : List ReqEvent :=
  match o with
  | .completed => [.workspaceStaged, .handedToTransport, .onSendFired]
  | .disconnected => [.workspaceStaged, .handedToTransport, .onSendFired]
  | .handlerFailed => [.workspaceStaged, .handedToTransport, .onSendFired]

/-- A parsed document modelled as a token stream: opening tags with their
attribute list, closing tags, text, comments and CDATA sections. Text is
stored decoded. -/
inductive Tok
  | tag (name : String) (attrs : List (String × String))
  | closeTag (name : String)
  | text (s : String)
  | comment (s : String)
  | cdata (s : String)
deriving DecidableEq, Repr

/-- A document is a stream of tokens. -/
abbrev Doc := List Tok

/-- getAttribute: the value of the first attribute with the given name. -/
def getAttr : List (String × String) → String → Option String
  | [], _ => none
  | (m, w) :: rest, n => if m = n then some w else getAttr rest n

/-- setAttribute: replace the value of the first attribute with the given
name in place, appending the attribute when absent (DOM semantics). -/
def setAttr : List (String × String) → String → String → List (String × String)
  | [], n, v => [(n, v)]
  | (m, w) :: rest, n, v =>
    if m = n then (m, v) :: rest else (m, w) :: setAttr rest n v

/-- Whether a token is an opening img tag. -/
def isImgTag : Tok → Bool
  | .tag n _ => n = "img"
  | _ => false

/-- The src attributes of the img elements of the converter's output (the
converter generates names such as pict001.wmf). -/
def imgSrcs (d : Doc) : List String :=
  d.filterMap (fun t =>
    match t with
    | Tok.tag n attrs => if n = "img" then getAttr attrs "src" else none
    | _ => none)

/-- The preHandler image-removal block: remove every img node from the tree
and fs.rm each referenced side-file from the cwd with force set, so a file
already absent is not an error. -/
def removeImages (d : Doc) (cwd : FileSys) : Doc × FileSys :=
  (d.filter (fun t => !(isImgTag t)), (imgSrcs d).foldl rmForce cwd)

/-- The function config values tidyHtml reads: the language querystring
value as received (absent when not supplied) and the removeAlt flag. -/
structure TidyOptions where
  language : Option String
  removeAlt : Bool
deriving DecidableEq, Repr

/-- The JS expression options.language or-else "en": an absent language and
the falsy empty string both fall back to "en". -/
def effectiveLanguage (o : Option String) : String :=
  match o with
  | none => "en"
  | some s => if s = "" then "en" else s

/-- Set lang and xml:lang on the document's html element (the first opening
html tag, as querySelector finds it). -/
def setDocLang (lang : String) : Doc → Doc
  | [] => []
  | Tok.tag n attrs :: rest =>
    if n = "html" then
      Tok.tag n (setAttr (setAttr attrs "lang" lang) "xml:lang" lang) :: rest
    else Tok.tag n attrs :: setDocLang lang rest
  | t :: rest => t :: setDocLang lang rest

/-- The removeAlt branch body: setAttribute of alt to the empty string on an
img element, every other token untouched. -/
def setImgAlt : Tok → Tok
  | .tag n attrs => if n = "img" then .tag n (setAttr attrs "alt" "") else .tag n attrs
  | t => t

/-- The removeAlt branch of tidyHtml: blank the alt attribute of every img
element of the document. -/
def removeAltPass (d : Doc) : Doc :=
  d.map setImgAlt

/-- Modelled from the spec: the clean option replaces legacy HTML tags with
their modern equivalents. -/
def cleanTag (n : String) : String :=
  if n = "center" then "div"
  else if n = "font" then "span"
  else if n = "strike" then "s"
  else n

/-- Modelled from the spec: the escapeCdata option converts a CDATA section
to normal text. -/
def escapeCdataTok : Tok → Tok
  | .cdata s => .text s
  | t => t

/-- Tag replacement applied to opening and closing tags. -/
def cleanTok : Tok → Tok
  | .tag n attrs => .tag (cleanTag n) attrs
  | .closeTag n => .closeTag (cleanTag n)
  | t => t

/-- Modelled from the spec: vendor-proprietary attributes, such as Microsoft
data-binding attributes, that the dropProprietaryAttributes option strips. -/
def proprietaryAttrs : List String :=
  ["datasrc", "datafld", "dataformatas"]

/-- Strip proprietary attributes from an opening tag. -/
def dropPropTok : Tok → Tok
  | .tag n attrs => .tag n (attrs.filter (fun a => !(proprietaryAttrs.contains a.1)))
  | t => t

/-- Modelled from the spec: the bare option maps smart quotes, em and en
dashes and non-breaking spaces to their ASCII equivalents. -/
def bareChar (c : Char) : Char :=
  if c = '‘' then Char.ofNat 39
  else if c = '’' then Char.ofNat 39
  else if c = '“' then '"'
  else if c = '”' then '"'
  else if c = '–' then '-'
  else if c = '—' then '-'
  else if c = ' ' then ' '
  else c

/-- Map a character transformation over a string. -/
def mapStr (f : Char → Char) (s : String) : String :=
  String.mk (s.data.map f)

/-- The bare option applied to a text token. -/
def bareTok : Tok → Tok
  | .text s => .text (mapStr bareChar s)
  | t => t

/-- Modelled from the spec: the htmltidy2 structural-cleanup pass with the
options tidyHtml enables — escapeCdata, clean, dropProprietaryAttributes
and bare. -/
def tidyPass (d : Doc) : Doc :=
  (((d.map escapeCdataTok).map cleanTok).map dropPropTok).map bareTok

/-- The whitespace characters the collapse pass folds. -/
def isWsChar (c : Char) : Bool :=
  decide (c = ' ' ∨ c = '\n' ∨ c = '\t' ∨ c = '\r')

/-- Split a character list into its maximal whitespace-free words; acc holds
the current word reversed. -/
def wordsAux : List Char → List Char → List (List Char)
  | [], acc => if acc = [] then [] else [acc.reverse]
  | c :: cs, acc =>
    if isWsChar c then
      if acc = [] then wordsAux cs [] else acc.reverse :: wordsAux cs []
    else wordsAux cs (c :: acc)

/-- The whitespace-free words of a character list. -/
def wordsOf (l : List Char) : List (List Char) :=
  wordsAux l []

/-- Join words with single spaces. -/
def joinWords : List (List Char) → List Char
  | [] => []
  | w :: rest =>
    match rest with
    | [] => w
    | _ :: _ => w ++ ' ' :: joinWords rest

/-- Modelled from the spec: the collapseWhitespace option — runs of
whitespace collapse to one space and leading and trailing whitespace is
trimmed. -/
def collapseStr (s : String) : String :=
  String.mk (joinWords (wordsOf s.data))

/-- Whitespace collapse applied to a text token. -/
def collapseTok : Tok → Tok
  | .text s => .text (collapseStr s)
  | t => t

/-- Modelled from the spec: the removeComments option. -/
def removeCommentsPass (d : Doc) : Doc :=
  d.filter (fun t => match t with | Tok.comment _ => false | _ => true)

/-- Byte-order comparison of characters. -/
def charLtb (a b : Char) : Bool :=
  decide (a.toNat < b.toNat)

/-- Lexicographic less-or-equal on character lists. -/
def wordLeb : List Char → List Char → Bool
  | [], _ => true
  | _ :: _, [] => false
  | a :: as, b :: bs => if a = b then wordLeb as bs else charLtb a b

/-- The order the modelled sorting passes use, as a relation. -/
def wordLE (a b : List Char) : Prop :=
  wordLeb a b = true

instance : DecidableRel wordLE :=
  fun a b => inferInstanceAs (Decidable (wordLeb a b = true))

instance : IsTotal (List Char) wordLE := by
  constructor
  intro a
  induction a with
  | nil => intro b; exact Or.inl rfl
  | cons c as ih =>
    intro b
    cases b with
    | nil => exact Or.inr rfl
    | cons e bs =>
      by_cases hce : c = e
      · subst hce
        rcases ih bs with h | h
        · exact Or.inl (by simp [wordLE, wordLeb] at h ⊢; exact h)
        · exact Or.inr (by simp [wordLE, wordLeb] at h ⊢; exact h)
      · rcases Nat.lt_or_ge c.toNat e.toNat with h | h
        · refine Or.inl ?_
          simp only [wordLE, wordLeb, if_neg hce]
          exact decide_eq_true h
        · refine Or.inr ?_
          have hne : ¬ e = c := fun he => hce he.symm
          simp only [wordLE, wordLeb, if_neg hne]
          refine decide_eq_true (Nat.lt_of_le_of_ne h ?_)
          intro he
          exact hce (Char.eq_of_val_eq (UInt32.toNat.inj he.symm))

instance : IsTrans (List Char) wordLE := by
  constructor
  intro a
  induction a with
  | nil =>
    intro b c _ _
    exact rfl
  | cons x as ih =>
    intro b c hab hbc
    cases b with
    | nil => exact absurd hab (by simp [wordLE, wordLeb])
    | cons y bs =>
      cases c with
      | nil => exact absurd hbc (by simp [wordLE, wordLeb])
      | cons z cs =>
        by_cases hxy : x = y
        · subst hxy
          by_cases hyz : x = z
          · subst hyz
            have h1 : wordLE as bs := by simpa [wordLE, wordLeb] using hab
            have h2 : wordLE bs cs := by simpa [wordLE, wordLeb] using hbc
            simpa [wordLE, wordLeb] using ih bs cs h1 h2
          · simp only [wordLE, wordLeb, if_neg hyz] at hbc ⊢
            exact hbc
        · by_cases hyz : y = z
          · subst hyz
            simp only [wordLE, wordLeb, if_neg hxy] at hab ⊢
            exact hab
          · have h1 : x.toNat < y.toNat := by
              have := hab
              simp only [wordLE, wordLeb, if_neg hxy, charLtb] at this
              exact of_decide_eq_true this
            have h2 : y.toNat < z.toNat := by
              have := hbc
              simp only [wordLE, wordLeb, if_neg hyz, charLtb] at this
              exact of_decide_eq_true this
            have h3 : x.toNat < z.toNat := Nat.lt_trans h1 h2
            have hxz : ¬ x = z := by
              intro he
              subst he
              exact Nat.lt_irrefl _ h3
            simp only [wordLE, wordLeb, if_neg hxz, charLtb]
            exact decide_eq_true h3

/-- The sortClassName order on class words. -/
def classWordLE (a b : String) : Prop :=
  wordLE a.data b.data

instance : DecidableRel classWordLE :=
  fun a b => inferInstanceAs (Decidable (wordLE a.data b.data))

instance : IsTotal String classWordLE :=
  ⟨fun a b => @IsTotal.total _ wordLE _ a.data b.data⟩

instance : IsTrans String classWordLE :=
  ⟨fun _ _ _ h1 h2 => @IsTrans.trans _ wordLE _ _ _ _ h1 h2⟩

/-- The class attribute's words. -/
def classWords (s : String) : List String :=
  (wordsOf s.data).map String.mk

/-- Join class words back into an attribute value. -/
def joinClassWords (ws : List String) : String :=
  String.mk (joinWords (ws.map String.data))

/-- Modelled from the spec: the sortClassName option — the class attribute's
whitespace-separated words are sorted and rejoined with single spaces. -/
def sortClassVal (s : String) : String :=
  joinClassWords (List.insertionSort classWordLE (classWords s))

/-- The per-attribute action of sortClassName. -/
def sortClassAttr (a : String × String) : String × String :=
  if a.1 = "class" then (a.1, sortClassVal a.2) else a

/-- sortClassName applied to a token. -/
def sortClassTok : Tok → Tok
  | .tag n attrs => .tag n (attrs.map sortClassAttr)
  | t => t

/-- Modelled from the spec: attributes the removeRedundantAttributes option
drops, as tag-name, attribute-name, attribute-value triples. -/
def redundantAttr (tagName attrName attrVal : String) : Bool :=
  decide ((tagName = "form" ∧ attrName = "method" ∧ attrVal = "get") ∨
    (tagName = "input" ∧ attrName = "type" ∧ attrVal = "text") ∨
    (tagName = "script" ∧ attrName = "language" ∧ attrVal = "javascript"))

/-- removeRedundantAttributes applied to a token. -/
def removeRedundantTok : Tok → Tok
  | .tag n attrs => .tag n (attrs.filter (fun a => !(redundantAttr n a.1 a.2)))
  | t => t

/-- Modelled from the spec: the attributes the removeEmptyAttributes option
may drop when their value is empty (the library's safe list). -/
def emptyRemovableAttrs : List String :=
  ["class", "id", "style", "title", "lang", "dir"]

/-- removeEmptyAttributes applied to a token. -/
def removeEmptyTok : Tok → Tok
  | .tag n attrs =>
    .tag n (attrs.filter (fun a => !(emptyRemovableAttrs.contains a.1 && decide (a.2 = ""))))
  | t => t

/-- The sortAttributes order: by attribute name. -/
def attrKeyLE (x y : String × String) : Prop :=
  wordLE x.1.data y.1.data

instance : DecidableRel attrKeyLE :=
  fun x y => inferInstanceAs (Decidable (wordLE x.1.data y.1.data))

instance : IsTotal (String × String) attrKeyLE :=
  ⟨fun x y => @IsTotal.total _ wordLE _ x.1.data y.1.data⟩

instance : IsTrans (String × String) attrKeyLE :=
  ⟨fun _ _ _ h1 h2 => @IsTrans.trans _ wordLE _ _ _ _ h1 h2⟩

/-- Modelled from the spec: the sortAttributes option sorts each element's
attributes by name. -/
def sortAttrsTok : Tok → Tok
  | .tag n attrs => .tag n (List.insertionSort attrKeyLE attrs)
  | t => t

/-- Modelled from the spec: the html-minifier-terser pass with the options
tidyHtml enables — removeComments, collapseWhitespace, sortClassName,
removeRedundantAttributes, removeEmptyAttributes and sortAttributes.
decodeEntities is invisible at the token level, where text is stored
decoded. -/
def minifyPass (d : Doc) : Doc :=
  (((((removeCommentsPass d).map collapseTok).map sortClassTok).map
    removeRedundantTok).map removeEmptyTok).map sortAttrsTok

/-- Shallow embedding of the tidy-html plugin's tidyHtml function over the
token-stream document model (JSDOM parse and serialize are the identity on
this representation): apply the language fallback, validate it with the
check function (the external language-tags library, passed as a parameter),
set lang and xml:lang on the html element, optionally blank every img alt,
then run the modelled tidy and minify passes. -/
def tidyHtml (check : String → Bool) (html : Doc) (options : TidyOptions) :
    Except HttpErr Doc :=
  let language := effectiveLanguage options.language
  if check language = false then .error badRequestLanguage
  else
    let d1 := setDocLang language html
    let d2 := if options.removeAlt then removeAltPass d1 else d1
    .ok (minifyPass (tidyPass d2))

/-- Modelled from the spec: a fragment of the IANA language-subtag registry
for concrete witnesses — these are registered primary-language subtags, and
the empty string is not a valid tag of the registry. -/
def ianaRegistryFragment : List String :=
  ["en", "fr", "de", "es", "it"]

/-- Modelled from the spec: the language-tags check function restricted to
the registry fragment above. -/
def ianaCheck (tag : String) : Bool :=
  ianaRegistryFragment.contains tag

/-- Well-formedness of a token: an opening tag's attribute names are
pairwise distinct, as in a DOM attribute map (parser output always
satisfies this). -/
def wfTok : Tok → Bool
  | .tag _ attrs => decide ((attrs.map Prod.fst).Nodup)
  | _ => true

/-- Well-formedness of a document. -/
def wfDoc (d : Doc) : Bool :=
  d.all wfTok

/-- A per-token property holding of every token of a document. -/
def DocInv (P : Tok → Prop) (d : Doc) : Prop :=
  ∀ t ∈ d, P t

/-- Whether a token is an opening tag. -/
def isTagTok : Tok → Bool
  | .tag _ _ => true
  | _ => false

/-- Whether a token is text. -/
def isTextTok : Tok → Bool
  | .text _ => true
  | _ => false

/-- A pass that rewrites only attribute lists: an opening tag's attributes
become F of them, every other token is untouched. -/
def AttrsOnly (g : Tok → Tok)
    (F : String → List (String × String) → List (String × String)) : Prop :=
  (∀ n attrs, g (Tok.tag n attrs) = Tok.tag n (F n attrs)) ∧
    ∀ t, isTagTok t = false → g t = t

/-- A pass that rewrites only text: a text token's string becomes f of it,
every other token is untouched. -/
def TextOnly (g : Tok → Tok) (f : String → String) : Prop :=
  (∀ s, g (Tok.text s) = Tok.text (f s)) ∧
    ∀ t, isTextTok t = false → g t = t

/-- A per-attribute property (possibly depending on the tag name) holding of
every attribute of an opening tag. -/
def attrInv (Q : String → String × String → Prop) : Tok → Prop
  | .tag n attrs => ∀ a ∈ attrs, Q n a
  | _ => True

/-- A property of a text token's string. -/
def textInv (P : String → Prop) : Tok → Prop
  | .text s => P s
  | _ => True

/-- No CDATA section. -/
def notCdataTok : Tok → Prop
  | .cdata _ => False
  | _ => True

/-- No comment. -/
def notCommentTok : Tok → Prop
  | .comment _ => False
  | _ => True

/-- Tag names are fixed points of the legacy-tag replacement. -/
def cleanFixedTok : Tok → Prop
  | .tag n _ => cleanTag n = n
  | .closeTag n => cleanTag n = n
  | _ => True

/-- No proprietary attribute. -/
def propFreeTok : Tok → Prop :=
  attrInv (fun _ a => proprietaryAttrs.contains a.1 = false)

/-- Text characters are fixed points of the bare mapping. -/
def bareFixedTok : Tok → Prop :=
  textInv (fun s => ∀ c ∈ s.data, bareChar c = c)

/-- Text is whitespace-collapsed. -/
def collapseFixedTok : Tok → Prop :=
  textInv (fun s => collapseStr s = s)

/-- Class attribute values are sorted. -/
def classSortedTok : Tok → Prop :=
  attrInv (fun _ a => a.1 = "class" → sortClassVal a.2 = a.2)

/-- No redundant attribute. -/
def noRedundantAttrTok : Tok → Prop :=
  attrInv (fun n a => redundantAttr n a.1 a.2 = false)

/-- No droppable empty attribute. -/
def noEmptyListedTok : Tok → Prop :=
  attrInv (fun _ a => (emptyRemovableAttrs.contains a.1 && decide (a.2 = "")) = false)

/-- Attributes are sorted by name. -/
def attrsSortedTok : Tok → Prop
  | .tag _ attrs => List.Sorted attrKeyLE attrs
  | _ => True

/-- Attribute names are pairwise distinct (Prop form of wfTok). -/
def wfAttrsTok : Tok → Prop
  | .tag _ attrs => (attrs.map Prod.fst).Nodup
  | _ => True

/-- Every img element's alt attribute is present and blank. -/
def imgAltBlankTok : Tok → Prop
  | .tag n attrs => n = "img" → getAttr attrs "alt" = some ""
  | _ => True

/-- Lists of words that are nonempty and whitespace-free (what the word
splitter produces). -/
def GoodWords (L : List (List Char)) : Prop :=
  ∀ w ∈ L, w ≠ [] ∧ ∀ c ∈ w, isWsChar c = false

/-- The attribute list of the document's html element (the first opening
html tag), when there is one. -/
def firstHtmlAttrs : Doc → Option (List (String × String))
  | [] => none
  | Tok.tag n attrs :: rest => if n = "html" then some attrs else firstHtmlAttrs rest
  | _ :: rest => firstHtmlAttrs rest

/-- The html element, if present, carries the given language in lang and
xml:lang. -/
def FirstHtmlLangSet (lang : String) (d : Doc) : Prop :=
  ∀ attrs, firstHtmlAttrs d = some attrs →
    getAttr attrs "lang" = some lang ∧ getAttr attrs "xml:lang" = some lang

/-- Helper: every file returned by the glob is a file of the directory the
glob ran over. -/
theorem globIdFiles_subset (fs : FileSys) (docId : String) :
    ∀ f ∈ globIdFiles fs docId, f ∈ fs := by
  intro f hf
  exact (List.mem_filter.mp hf).1

/-- Helper: unlinking the globbed files of a directory state succeeds and
leaves exactly the files whose name does not begin with the id. -/
theorem unlinkAll_glob (fs : FileSys) (docId : String) :
    unlinkAll fs (globIdFiles fs docId) =
      .ok (fs.filter (fun g => !(strIsPfxOf docId g))) := by
  have hall : (globIdFiles fs docId).all (fun f => decide (f ∈ fs)) = true := by
    rw [List.all_eq_true]
    intro f hf
    exact decide_eq_true (globIdFiles_subset fs docId f hf)
  unfold unlinkAll
  rw [hall]
  simp only [if_true]
  congr 1
  apply List.filter_congr
  intro x hx
  simp [globIdFiles, List.mem_filter, hx]

/-- C1: for every request with a staged workspace, the HTTP layer fires the
onSend cleanup hook exactly once, after the response body was handed to the
transport, on every outcome including disconnect and failure; the hook's
glob-and-unlink step removes from the temp directory exactly the files whose
name begins with the request's id and hands the payload onward. -/
theorem C1_cleanup_runs_once_and_unlinks_id_files (fs : FileSys)
    (dl : DocLocation) (payload : List Nat) (o : ReqOutcome) :
    (requestTrace o).count ReqEvent.onSendFired = 1 ∧
    requestTrace o =
      [ReqEvent.workspaceStaged, ReqEvent.handedToTransport, ReqEvent.onSendFired] ∧
    onSendHook (some dl) fs fs payload =
      .ok (fs.filter (fun g => !(strIsPfxOf dl.docId g)), payload) := by
  refine ⟨by cases o <;> rfl, by cases o <;> rfl, ?_⟩
  have hstep : onSendHook (some dl) fs fs payload =
      match unlinkAll fs (globIdFiles fs dl.docId) with
      | .ok fs2 => .ok (fs2, payload)
      | .error e => .error e := rfl
  rw [hstep, unlinkAll_glob]

/-- C10: whenever the onSend cleanup hook hands a response body onward, that
body is byte-for-byte the payload it received, whatever the glob and unlink
operations did to the filesystem. -/
theorem C10_payload_handed_on_unchanged (doc : Option DocLocation)
    (fsG fsU : FileSys) (payload : List Nat) (fs2 : FileSys) (p2 : List Nat)
    (h : onSendHook doc fsG fsU payload = .ok (fs2, p2)) :
    p2 = payload := by
  cases doc with
  | none =>
    simp only [onSendHook, Except.ok.injEq, Prod.mk.injEq] at h
    exact h.2.symm
  | some dl =>
    have hstep : onSendHook (some dl) fsG fsU payload =
        match unlinkAll fsU (globIdFiles fsG dl.docId) with
        | .ok fs2 => .ok (fs2, payload)
        | .error e => .error e := rfl
    rw [hstep] at h
    cases hu : unlinkAll fsU (globIdFiles fsG dl.docId) with
    | ok fs3 =>
      rw [hu] at h
      simp only [Except.ok.injEq, Prod.mk.injEq] at h
      exact h.2.symm
    | error e =>
      rw [hu] at h
      exact absurd h (by simp)

/-- Witness for C10 at a concrete staged request. -/
theorem C10_payload_handed_on_unchanged_witness : ([7, 8] : List Nat) = [7, 8] :=
  C10_payload_handed_on_unchanged (some ⟨"/tmp/docsmith", "doc1"⟩) ["doc1.rtf"]
    ["doc1.rtf"] [7, 8] [] [7, 8] (by rfl)

/-- C6 as stated is false: a file present when the glob ran but gone by the
time its unlink executes makes the onSend hook fail with ENOENT — the
missing-file unlink error is not swallowed during cleanup. -/
theorem C6_counterexample :
    onSendHook (some ⟨"/tmp/docsmith", "docsmith_rtf-to-html_a"⟩)
      ["docsmith_rtf-to-html_a.rtf"] [] [7] = .error "ENOENT" := by
  rfl

/-- C6 (amended): a missing target is swallowed only in the image side-file
path, where fs.rm runs with force and leaves the filesystem unchanged; in
the onSend cleanup an unlink whose target is already missing is not caught —
the error propagates out of the hook (nothing is logged and no error is
swallowed there). -/
theorem C6_unlink_error_asymmetry (fs : FileSys) (f : String) (hf : f ∉ fs)
    (dl : DocLocation) (fsG fsU : FileSys) (payload : List Nat) (g : String)
    (hg : g ∈ globIdFiles fsG dl.docId) (hgone : g ∉ fsU) :
    rmForce fs f = fs ∧
    onSendHook (some dl) fsG fsU payload = .error "ENOENT" := by
  constructor
  · apply List.filter_eq_self.mpr
    intro x hx
    exact decide_eq_true (fun he => hf (he ▸ hx))
  · have hall : (globIdFiles fsG dl.docId).all (fun f => decide (f ∈ fsU)) = false := by
      rw [← Bool.not_eq_true, List.all_eq_true]
      intro hforall
      exact hgone (of_decide_eq_true (hforall g hg))
    have hstep : onSendHook (some dl) fsG fsU payload =
        match unlinkAll fsU (globIdFiles fsG dl.docId) with
        | .ok fs2 => .ok (fs2, payload)
        | .error e => .error e := rfl
    rw [hstep]
    unfold unlinkAll
    rw [hall]
    rfl

/-- Witness for the amended C6 at concrete states: rm-force of a missing
side-file succeeds and a raced unlink makes the hook fail. -/
theorem C6_unlink_error_asymmetry_witness :
    rmForce ["a.rtf"] "b.rtf" = ["a.rtf"] ∧
    onSendHook (some ⟨"/tmp/docsmith", "doc1"⟩) ["doc1.rtf"] [] [1] = .error "ENOENT" :=
  C6_unlink_error_asymmetry ["a.rtf"] "b.rtf" (by decide) ⟨"/tmp/docsmith", "doc1"⟩
    ["doc1.rtf"] [] [1] "doc1.rtf" (by decide) (by decide)

/-- C2 (amended): for every payload whose bytes do not carry the PDF magic
signature — including a missing or empty payload — the content-type parser
rejects with UnsupportedMediaType (status 415) carrying the generic message,
and no temp file is created. -/
theorem C2_sniff_gate_rejects_before_staging (payload : List Nat)
    (h : sniffMime payload ≠ some "application/pdf") :
    sniffThenStage payload = (.error unsupportedMediaType, false) ∧
    unsupportedMediaType.statusCode = 415 := by
  refine ⟨?_, rfl⟩
  unfold sniffThenStage pdfContentTypeParser
  cases hs : sniffMime payload with
  | none => rfl
  | some m =>
    have hm : ¬ m = "application/pdf" := fun he => h (by rw [hs, he])
    simp [hm]

/-- Witness for the amended C2 at the empty payload. -/
theorem C2_sniff_gate_rejects_before_staging_witness :
    sniffThenStage [] = (.error unsupportedMediaType, false) ∧
    unsupportedMediaType.statusCode = 415 :=
  C2_sniff_gate_rejects_before_staging [] (by decide)

/-- C2 as stated is false: the parser throws UnsupportedMediaType() with no
argument, so the diagnostic message is the generic one — it carries neither
the detected type (here image/png) nor the word missing for an absent
payload. -/
theorem C2_counterexample :
    sniffMime [0x89, 0x50, 0x4E, 0x47, 0x0D] = some "image/png" ∧
    pdfContentTypeParser [0x89, 0x50, 0x4E, 0x47, 0x0D] = .error unsupportedMediaType ∧
    sniffMime [] = none ∧
    pdfContentTypeParser [] = .error unsupportedMediaType ∧
    ¬ List.IsInfix "image/png".data unsupportedMediaType.message.data ∧
    ¬ List.IsInfix "missing".data unsupportedMediaType.message.data := by
  refine ⟨rfl, rfl, rfl, rfl, by decide, by decide⟩

/-- C3: a converter failure whose text reports the wrong media type is
surfaced as the client error 400 Bad Request (a 4xx status); any other
converter failure is rethrown and surfaced as the server error 500 (a 5xx
status); in both cases the converter was invoked exactly once — no retry. -/
theorem C3_converter_error_classified_no_retry (convert : Nat → ConvOutcome)
    (calls : Nat) (m : String) (hm : convert calls = .failure m) :
    (runConversion convert calls).2 = calls + 1 ∧
    (runConversion convert calls).1 = .error (classifyConverterError m) ∧
    (List.IsInfix mediaTypeErrPattern.data m.data →
      classifyConverterError m = badRequestDefault ∧
      400 ≤ (classifyConverterError m).statusCode ∧
      (classifyConverterError m).statusCode < 500) ∧
    (¬ List.IsInfix mediaTypeErrPattern.data m.data →
      classifyConverterError m = internalServerError ∧
      500 ≤ (classifyConverterError m).statusCode) := by
  refine ⟨by simp [runConversion, hm], by simp [runConversion, hm], ?_, ?_⟩
  · intro hin
    simp [classifyConverterError, hin, badRequestDefault]
  · intro hout
    simp [classifyConverterError, hout, internalServerError]

/-- Witness for C3 at a concrete media-type failure message. -/
theorem C3_converter_error_classified_no_retry_witness :
    (runConversion (fun _ => ConvOutcome.failure
        "Error: File is not the correct media type") 0).2 = 0 + 1 ∧
    (runConversion (fun _ => ConvOutcome.failure
        "Error: File is not the correct media type") 0).1 =
      .error (classifyConverterError "Error: File is not the correct media type") ∧
    (List.IsInfix mediaTypeErrPattern.data
        "Error: File is not the correct media type".data →
      classifyConverterError "Error: File is not the correct media type" =
        badRequestDefault ∧
      400 ≤ (classifyConverterError
        "Error: File is not the correct media type").statusCode ∧
      (classifyConverterError
        "Error: File is not the correct media type").statusCode < 500) ∧
    (¬ List.IsInfix mediaTypeErrPattern.data
        "Error: File is not the correct media type".data →
      classifyConverterError "Error: File is not the correct media type" =
        internalServerError ∧
      500 ≤ (classifyConverterError
        "Error: File is not the correct media type").statusCode) :=
  C3_converter_error_classified_no_retry
    (fun _ => ConvOutcome.failure "Error: File is not the correct media type")
    0 "Error: File is not the correct media type" rfl

/-- C9: temp-directory creation is an idempotent ensure — mkdir failing with
EEXIST is swallowed (an existing directory is fine), while any other mkdir
failure propagates out of plugin registration, so no conversion ever runs. -/
theorem C9_mkdir_eexist_swallowed_other_fatal (osFailure : Option String)
    (code : String) (h1 : osFailure = some code) (h2 : code ≠ "EEXIST")
    (requests : Nat) :
    ensureTempDir true none = .ok () ∧
    ensureTempDir false none = .ok () ∧
    ensureTempDir true (some "EEXIST") = .ok () ∧
    (∀ b : Bool, ensureTempDir b osFailure = .error code) ∧
    (∀ b : Bool, conversionsPerformed b osFailure requests = 0) := by
  subst h1
  refine ⟨rfl, rfl, rfl, ?_, ?_⟩
  · intro b
    simp [ensureTempDir, mkdirResult, h2]
  · intro b
    simp [conversionsPerformed, ensureTempDir, mkdirResult, h2]

/-- Witness for C9 at a concrete permissions failure. -/
theorem C9_mkdir_eexist_swallowed_other_fatal_witness :
    ensureTempDir true none = .ok () ∧
    ensureTempDir false none = .ok () ∧
    ensureTempDir true (some "EEXIST") = .ok () ∧
    (∀ b : Bool, ensureTempDir b (some "EACCES") = .error "EACCES") ∧
    (∀ b : Bool, conversionsPerformed b (some "EACCES") 3 = 0) :=
  C9_mkdir_eexist_swallowed_other_fatal (some "EACCES") "EACCES" rfl (by decide) 3

theorem getAttr_setAttr_self (attrs : List (String × String)) (n v : String) :
    getAttr (setAttr attrs n v) n = some v := by
  induction attrs with
  | nil => simp [setAttr, getAttr]
  | cons a rest ih =>
    obtain ⟨m, w⟩ := a
    by_cases h : m = n
    · simp [setAttr, getAttr, h]
    · simp [setAttr, getAttr, h, ih]

theorem getAttr_setAttr_other (attrs : List (String × String)) (n v m2 : String)
    (h : m2 ≠ n) : getAttr (setAttr attrs n v) m2 = getAttr attrs m2 := by
  induction attrs with
  | nil =>
    simp [setAttr, getAttr, Ne.symm h]
  | cons a rest ih =>
    obtain ⟨m, w⟩ := a
    by_cases h1 : m = n
    · subst h1
      simp [setAttr, getAttr, Ne.symm h]
    · by_cases h3 : m = m2
      · simp only [setAttr, if_neg h1, getAttr, if_pos h3]
      · simp only [setAttr, if_neg h1, getAttr, if_neg h3]
        exact ih

theorem setAttr_sub (attrs : List (String × String)) (n v : String)
    (b : String × String) (hb : b ∈ setAttr attrs n v) :
    b = (n, v) ∨ b ∈ attrs := by
  induction attrs with
  | nil =>
    simp only [setAttr, List.mem_singleton] at hb
    exact Or.inl hb
  | cons a rest ih =>
    obtain ⟨m, w⟩ := a
    by_cases h : m = n
    · subst h
      simp only [setAttr, if_pos rfl] at hb
      rcases List.mem_cons.mp hb with h1 | h1
      · exact Or.inl h1
      · exact Or.inr (List.mem_cons_of_mem _ h1)
    · simp only [setAttr, if_neg h] at hb
      rcases List.mem_cons.mp hb with h1 | h1
      · exact Or.inr (h1 ▸ List.mem_cons_self _ _)
      · rcases ih h1 with h2 | h2
        · exact Or.inl h2
        · exact Or.inr (List.mem_cons_of_mem _ h2)

theorem setAttr_of_getAttr (attrs : List (String × String)) (n v : String)
    (h : getAttr attrs n = some v) : setAttr attrs n v = attrs := by
  induction attrs with
  | nil => simp [getAttr] at h
  | cons a rest ih =>
    obtain ⟨m, w⟩ := a
    by_cases h1 : m = n
    · simp only [getAttr, if_pos h1] at h
      obtain rfl : w = v := Option.some.inj h
      simp [setAttr, h1]
    · simp only [getAttr, if_neg h1] at h
      simp [setAttr, h1, ih h]

theorem getAttr_eq_none_iff (attrs : List (String × String)) (n : String) :
    getAttr attrs n = none ↔ n ∉ attrs.map Prod.fst := by
  induction attrs with
  | nil => simp [getAttr]
  | cons a rest ih =>
    obtain ⟨m, w⟩ := a
    by_cases h : m = n
    · subst h
      simp [getAttr]
    · simp only [getAttr, if_neg h, List.map_cons, List.mem_cons]
      rw [ih]
      constructor
      · intro h1 h2
        rcases h2 with h2 | h2
        · exact h h2.symm
        · exact h1 h2
      · intro h1 h2
        exact h1 (Or.inr h2)

theorem getAttr_mem (attrs : List (String × String)) (n v : String)
    (h : getAttr attrs n = some v) : (n, v) ∈ attrs := by
  induction attrs with
  | nil => simp [getAttr] at h
  | cons a rest ih =>
    obtain ⟨m, w⟩ := a
    by_cases h1 : m = n
    · simp only [getAttr, if_pos h1] at h
      obtain rfl : w = v := Option.some.inj h
      exact h1 ▸ List.mem_cons_self _ _
    · simp only [getAttr, if_neg h1] at h
      exact List.mem_cons_of_mem _ (ih h)

theorem getAttr_of_mem_nodup (attrs : List (String × String)) (n v : String)
    (hnd : (attrs.map Prod.fst).Nodup) (h : (n, v) ∈ attrs) :
    getAttr attrs n = some v := by
  induction attrs with
  | nil => simp at h
  | cons a rest ih =>
    obtain ⟨m, w⟩ := a
    rw [List.map_cons, List.nodup_cons] at hnd
    rcases List.mem_cons.mp h with h1 | h1
    · injection h1 with e1 e2
      subst e1
      subst e2
      simp [getAttr]
    · have hmn : ¬ m = n := by
        intro he
        subst he
        exact hnd.1 (List.mem_map.mpr ⟨(m, v), h1, rfl⟩)
      simp [getAttr, hmn, ih hnd.2 h1]

theorem getAttr_perm (attrs attrs2 : List (String × String))
    (hp : attrs.Perm attrs2) (hnd : (attrs.map Prod.fst).Nodup) (n : String) :
    getAttr attrs n = getAttr attrs2 n := by
  have hnd2 : (attrs2.map Prod.fst).Nodup := ((hp.map Prod.fst).nodup_iff).mp hnd
  cases hg : getAttr attrs n with
  | some v =>
    exact (getAttr_of_mem_nodup attrs2 n v hnd2 (hp.mem_iff.mp (getAttr_mem attrs n v hg))).symm
  | none =>
    rw [getAttr_eq_none_iff] at hg
    rw [eq_comm, getAttr_eq_none_iff]
    intro hmem
    exact hg (((hp.map Prod.fst).mem_iff).mpr hmem)

theorem nodup_setAttr (attrs : List (String × String)) (n v : String)
    (hnd : (attrs.map Prod.fst).Nodup) :
    ((setAttr attrs n v).map Prod.fst).Nodup := by
  induction attrs with
  | nil => simp [setAttr]
  | cons a rest ih =>
    obtain ⟨m, w⟩ := a
    rw [List.map_cons, List.nodup_cons] at hnd
    by_cases h : m = n
    · simp only [setAttr, if_pos h, List.map_cons, List.nodup_cons]
      exact hnd
    · simp only [setAttr, if_neg h, List.map_cons, List.nodup_cons]
      refine ⟨?_, ih hnd.2⟩
      intro hmem
      rcases List.mem_map.mp hmem with ⟨b, hb, hfst⟩
      rcases setAttr_sub rest n v b hb with h1 | h1
      · exact h (by rw [← hfst, h1])
      · exact hnd.1 (List.mem_map.mpr ⟨b, h1, hfst⟩)

theorem getAttr_filter (attrs : List (String × String))
    (p : String × String → Bool) (n v : String) (h : getAttr attrs n = some v)
    (hp : p (n, v) = true) : getAttr (attrs.filter p) n = some v := by
  induction attrs with
  | nil => simp [getAttr] at h
  | cons a rest ih =>
    obtain ⟨m, w⟩ := a
    by_cases h1 : m = n
    · subst h1
      simp only [getAttr, if_pos rfl] at h
      obtain rfl : w = v := (Option.some.injEq _ _).mp h
      rw [List.filter_cons, if_pos hp]
      simp [getAttr]
    · simp only [getAttr, if_neg h1] at h
      rw [List.filter_cons]
      by_cases h2 : p (m, w) = true
      · rw [if_pos h2]
        simp [getAttr, h1, ih h]
      · rw [if_neg h2]
        exact ih h

theorem getAttr_sortClassMap (attrs : List (String × String)) (n : String)
    (h : n ≠ "class") :
    getAttr (attrs.map sortClassAttr) n = getAttr attrs n := by
  induction attrs with
  | nil => simp [getAttr]
  | cons a rest ih =>
    obtain ⟨m, w⟩ := a
    have hs : sortClassAttr (m, w) =
        if m = "class" then (m, sortClassVal w) else (m, w) := rfl
    by_cases h1 : m = "class"
    · rw [List.map_cons, hs, if_pos h1]
      have h2 : ¬ m = n := fun he => h (he.symm.trans h1)
      simp only [getAttr, if_neg h2]
      exact ih
    · rw [List.map_cons, hs, if_neg h1]
      by_cases h3 : m = n
      · simp only [getAttr, if_pos h3]
      · simp only [getAttr, if_neg h3]
        exact ih

theorem wordsAux_append_nonws (w : List Char) :
    ∀ r acc, (∀ c ∈ w, isWsChar c = false) →
      wordsAux (w ++ r) acc = wordsAux r (w.reverse ++ acc) := by
  induction w with
  | nil =>
    intro r acc _
    simp
  | cons c cs ih =>
    intro r acc hw
    have hc : ¬ isWsChar c = true := by
      rw [hw c (List.mem_cons_self c cs)]
      exact Bool.false_ne_true
    have hcs : ∀ x ∈ cs, isWsChar x = false := fun x hx => hw x (List.mem_cons_of_mem c hx)
    rw [List.cons_append]
    show wordsAux (c :: (cs ++ r)) acc = _
    simp only [wordsAux, if_neg hc]
    rw [ih r (c :: acc) hcs]
    congr 1
    simp [List.append_assoc]

theorem wordsAux_good (l : List Char) :
    ∀ acc, (∀ c ∈ acc, isWsChar c = false) → GoodWords (wordsAux l acc) := by
  induction l with
  | nil =>
    intro acc hacc
    unfold wordsAux
    by_cases h : acc = []
    · rw [if_pos h]
      intro w hw
      simp at hw
    · rw [if_neg h]
      intro w hw
      rw [List.mem_singleton] at hw
      subst hw
      refine ⟨by simpa using h, ?_⟩
      intro c hc
      exact hacc c (List.mem_reverse.mp hc)
  | cons c cs ih =>
    intro acc hacc
    simp only [wordsAux]
    by_cases h1 : isWsChar c = true
    · rw [if_pos h1]
      by_cases h2 : acc = []
      · rw [if_pos h2]
        exact ih [] (by intro x hx; simp at hx)
      · rw [if_neg h2]
        intro w hw
        rcases List.mem_cons.mp hw with h3 | h3
        · subst h3
          refine ⟨by simpa using h2, ?_⟩
          intro x hx
          exact hacc x (List.mem_reverse.mp hx)
        · exact ih [] (by intro x hx; simp at hx) w h3
    · rw [if_neg h1]
      refine ih (c :: acc) ?_
      intro x hx
      rcases List.mem_cons.mp hx with h3 | h3
      · rw [h3]
        exact Bool.not_eq_true _ ▸ h1
      · exact hacc x h3

theorem wordsAux_chars (l : List Char) :
    ∀ acc w c, w ∈ wordsAux l acc → c ∈ w → c ∈ l ∨ c ∈ acc := by
  induction l with
  | nil =>
    intro acc w c hw hc
    unfold wordsAux at hw
    by_cases h : acc = []
    · rw [if_pos h] at hw
      simp at hw
    · rw [if_neg h] at hw
      rw [List.mem_singleton] at hw
      subst hw
      exact Or.inr (List.mem_reverse.mp hc)
  | cons x cs ih =>
    intro acc w c hw hc
    simp only [wordsAux] at hw
    by_cases h1 : isWsChar x = true
    · rw [if_pos h1] at hw
      by_cases h2 : acc = []
      · rw [if_pos h2] at hw
        rcases ih [] w c hw hc with h3 | h3
        · exact Or.inl (List.mem_cons_of_mem x h3)
        · simp at h3
      · rw [if_neg h2] at hw
        rcases List.mem_cons.mp hw with h3 | h3
        · subst h3
          exact Or.inr (List.mem_reverse.mp hc)
        · rcases ih [] w c h3 hc with h4 | h4
          · exact Or.inl (List.mem_cons_of_mem x h4)
          · simp at h4
    · rw [if_neg h1] at hw
      rcases ih (x :: acc) w c hw hc with h3 | h3
      · exact Or.inl (List.mem_cons_of_mem x h3)
      · rcases List.mem_cons.mp h3 with h4 | h4
        · exact Or.inl (h4 ▸ List.mem_cons_self x cs)
        · exact Or.inr h4

theorem wordsOf_join (L : List (List Char)) (hL : GoodWords L) :
    wordsOf (joinWords L) = L := by
  induction L with
  | nil => rfl
  | cons w rest ih =>
    have hw := hL w (List.mem_cons_self w rest)
    have hrest : GoodWords rest := fun x hx => hL x (List.mem_cons_of_mem w hx)
    have hrev : ¬ w.reverse = [] := by simpa using hw.1
    cases rest with
    | nil =>
      have hj : joinWords [w] = w := rfl
      rw [hj]
      unfold wordsOf
      calc wordsAux w [] = wordsAux (w ++ []) [] := by rw [List.append_nil]
        _ = wordsAux [] (w.reverse ++ []) := wordsAux_append_nonws w [] [] hw.2
        _ = [w] := by
            rw [List.append_nil]
            unfold wordsAux
            rw [if_neg hrev, List.reverse_reverse]
    | cons x rest2 =>
      have hj : joinWords (w :: x :: rest2) = w ++ ' ' :: joinWords (x :: rest2) := rfl
      rw [hj]
      unfold wordsOf
      rw [wordsAux_append_nonws w (' ' :: joinWords (x :: rest2)) [] hw.2, List.append_nil]
      have hsp : isWsChar ' ' = true := rfl
      simp only [wordsAux, hsp, if_true]
      rw [if_neg hrev, List.reverse_reverse]
      exact congrArg (w :: ·) (ih hrest)

theorem joinWords_chars (L : List (List Char)) :
    ∀ c ∈ joinWords L, (∃ w ∈ L, c ∈ w) ∨ c = ' ' := by
  induction L with
  | nil =>
    intro c hc
    simp [joinWords] at hc
  | cons w rest ih =>
    intro c hc
    cases rest with
    | nil =>
      have hj : joinWords [w] = w := rfl
      rw [hj] at hc
      exact Or.inl ⟨w, List.mem_singleton.mpr rfl, hc⟩
    | cons x rest2 =>
      have hj : joinWords (w :: x :: rest2) = w ++ ' ' :: joinWords (x :: rest2) := rfl
      rw [hj] at hc
      rcases List.mem_append.mp hc with h1 | h1
      · exact Or.inl ⟨w, List.mem_cons_self _ _, h1⟩
      · rcases List.mem_cons.mp h1 with h2 | h2
        · exact Or.inr h2
        · rcases ih c h2 with ⟨w2, hw2, hcw⟩ | h3
          · exact Or.inl ⟨w2, List.mem_cons_of_mem w hw2, hcw⟩
          · exact Or.inr h3

theorem collapseStr_chars (s : String) (c : Char) (hc : c ∈ (collapseStr s).data) :
    c ∈ s.data ∨ c = ' ' := by
  have hd : (collapseStr s).data = joinWords (wordsOf s.data) := rfl
  rw [hd] at hc
  rcases joinWords_chars (wordsOf s.data) c hc with ⟨w, hw, hcw⟩ | h1
  · rcases wordsAux_chars s.data [] w c hw hcw with h2 | h2
    · exact Or.inl h2
    · simp at h2
  · exact Or.inr h1

theorem collapseStr_idem (s : String) : collapseStr (collapseStr s) = collapseStr s := by
  unfold collapseStr
  have hd : (String.mk (joinWords (wordsOf s.data))).data = joinWords (wordsOf s.data) := rfl
  rw [hd, wordsOf_join (wordsOf s.data) (wordsAux_good s.data [] (by intro x hx; simp at hx))]

theorem strMk_data (s : String) : String.mk s.data = s := by
  obtain ⟨d⟩ := s
  rfl

theorem sortClassVal_idem (s : String) : sortClassVal (sortClassVal s) = sortClassVal s := by
  have hgood : GoodWords (((List.insertionSort classWordLE (classWords s)).map String.data)) := by
    intro w hw
    rcases List.mem_map.mp hw with ⟨y, hy, hdy⟩
    have hyL : y ∈ classWords s := (List.perm_insertionSort classWordLE (classWords s)).mem_iff.mp hy
    rcases List.mem_map.mp hyL with ⟨w0, hw0, hmk⟩
    have hgw := wordsAux_good s.data [] (by intro x hx; simp at hx) w0 hw0
    have hww : w = w0 := by rw [← hdy, ← hmk]
    rw [hww]
    exact hgw
  have h2 : classWords (joinClassWords (List.insertionSort classWordLE (classWords s))) =
      List.insertionSort classWordLE (classWords s) := by
    have h3 : classWords (joinClassWords (List.insertionSort classWordLE (classWords s))) =
        (wordsOf (joinWords ((List.insertionSort classWordLE (classWords s)).map String.data))).map
          String.mk := rfl
    rw [h3, wordsOf_join _ hgood, List.map_map]
    have h4 : (String.mk ∘ String.data) = id := by
      funext x
      exact strMk_data x
    rw [h4, List.map_id]
  show joinClassWords (List.insertionSort classWordLE
      (classWords (joinClassWords (List.insertionSort classWordLE (classWords s))))) = _
  rw [h2, List.Sorted.insertionSort_eq (List.sorted_insertionSort classWordLE (classWords s))]
  rfl

theorem map_fixed (g : Tok → Tok) (d : Doc) (h : ∀ t ∈ d, g t = t) : d.map g = d :=
  (List.map_congr_left h).trans (List.map_id d)

theorem docInv_map (P : Tok → Prop) (g : Tok → Tok) (hg : ∀ t, P (g t)) (d : Doc) :
    DocInv P (d.map g) := by
  intro t ht
  rcases List.mem_map.mp ht with ⟨t0, _, he⟩
  rw [← he]
  exact hg t0

theorem docInv_map_pres (P : Tok → Prop) (g : Tok → Tok) (hg : ∀ t, P t → P (g t))
    (d : Doc) (hd : DocInv P d) : DocInv P (d.map g) := by
  intro t ht
  rcases List.mem_map.mp ht with ⟨t0, ht0, he⟩
  rw [← he]
  exact hg t0 (hd t0 ht0)

theorem docInv_filter (P : Tok → Prop) (q : Tok → Bool) (d : Doc) (hd : DocInv P d) :
    DocInv P (d.filter q) :=
  fun t ht => hd t (List.mem_filter.mp ht).1

theorem attrsOnly_dropProp :
    AttrsOnly dropPropTok (fun _ attrs => attrs.filter (fun a => !(proprietaryAttrs.contains a.1))) := by
  constructor
  · intro n attrs
    rfl
  · intro t ht
    cases t with
    | tag n attrs => simp [isTagTok] at ht
    | closeTag n => rfl
    | text s => rfl
    | comment s => rfl
    | cdata s => rfl

theorem attrsOnly_sortClass :
    AttrsOnly sortClassTok (fun _ attrs => attrs.map sortClassAttr) := by
  constructor
  · intro n attrs
    rfl
  · intro t ht
    cases t with
    | tag n attrs => simp [isTagTok] at ht
    | closeTag n => rfl
    | text s => rfl
    | comment s => rfl
    | cdata s => rfl

theorem attrsOnly_removeRedundant :
    AttrsOnly removeRedundantTok
      (fun n attrs => attrs.filter (fun a => !(redundantAttr n a.1 a.2))) := by
  constructor
  · intro n attrs
    rfl
  · intro t ht
    cases t with
    | tag n attrs => simp [isTagTok] at ht
    | closeTag n => rfl
    | text s => rfl
    | comment s => rfl
    | cdata s => rfl

theorem attrsOnly_removeEmpty :
    AttrsOnly removeEmptyTok
      (fun _ attrs => attrs.filter (fun a => !(emptyRemovableAttrs.contains a.1 && decide (a.2 = "")))) := by
  constructor
  · intro n attrs
    rfl
  · intro t ht
    cases t with
    | tag n attrs => simp [isTagTok] at ht
    | closeTag n => rfl
    | text s => rfl
    | comment s => rfl
    | cdata s => rfl

theorem attrsOnly_sortAttrs :
    AttrsOnly sortAttrsTok (fun _ attrs => List.insertionSort attrKeyLE attrs) := by
  constructor
  · intro n attrs
    rfl
  · intro t ht
    cases t with
    | tag n attrs => simp [isTagTok] at ht
    | closeTag n => rfl
    | text s => rfl
    | comment s => rfl
    | cdata s => rfl

theorem attrsOnly_setImgAlt :
    AttrsOnly setImgAlt
      (fun n attrs => if n = "img" then setAttr attrs "alt" "" else attrs) := by
  constructor
  · intro n attrs
    show (if n = "img" then Tok.tag n (setAttr attrs "alt" "") else Tok.tag n attrs) =
      Tok.tag n (if n = "img" then setAttr attrs "alt" "" else attrs)
    by_cases h : n = "img"
    · rw [if_pos h, if_pos h]
    · rw [if_neg h, if_neg h]
  · intro t ht
    cases t with
    | tag n attrs => simp [isTagTok] at ht
    | closeTag n => rfl
    | text s => rfl
    | comment s => rfl
    | cdata s => rfl

theorem textOnly_bare : TextOnly bareTok (mapStr bareChar) := by
  constructor
  · intro s
    rfl
  · intro t ht
    cases t with
    | text s => simp [isTextTok] at ht
    | tag n attrs => rfl
    | closeTag n => rfl
    | comment s => rfl
    | cdata s => rfl

theorem textOnly_collapse : TextOnly collapseTok collapseStr := by
  constructor
  · intro s
    rfl
  · intro t ht
    cases t with
    | text s => simp [isTextTok] at ht
    | tag n attrs => rfl
    | closeTag n => rfl
    | comment s => rfl
    | cdata s => rfl

theorem attrsOnly_pres_attrInv (g : Tok → Tok)
    (F : String → List (String × String) → List (String × String))
    (hg : AttrsOnly g F) (Q : String → String × String → Prop)
    (hF : ∀ n attrs, (∀ b ∈ attrs, Q n b) → ∀ a ∈ F n attrs, Q n a) :
    ∀ t, attrInv Q t → attrInv Q (g t) := by
  intro t ht
  cases t with
  | tag n attrs =>
    rw [hg.1]
    intro a ha
    exact hF n attrs ht a ha
  | closeTag n => rw [hg.2 (Tok.closeTag n) rfl]; exact ht
  | text s => rw [hg.2 (Tok.text s) rfl]; exact ht
  | comment s => rw [hg.2 (Tok.comment s) rfl]; exact ht
  | cdata s => rw [hg.2 (Tok.cdata s) rfl]; exact ht

theorem attrsOnly_pres_textInv (g : Tok → Tok)
    (F : String → List (String × String) → List (String × String))
    (hg : AttrsOnly g F) (P : String → Prop) :
    ∀ t, textInv P t → textInv P (g t) := by
  intro t ht
  cases t with
  | tag n attrs => rw [hg.1]; trivial
  | closeTag n => rw [hg.2 (Tok.closeTag n) rfl]; exact ht
  | text s => rw [hg.2 (Tok.text s) rfl]; exact ht
  | comment s => rw [hg.2 (Tok.comment s) rfl]; exact ht
  | cdata s => rw [hg.2 (Tok.cdata s) rfl]; exact ht

theorem attrsOnly_pres_notCdata (g : Tok → Tok)
    (F : String → List (String × String) → List (String × String))
    (hg : AttrsOnly g F) :
    ∀ t, notCdataTok t → notCdataTok (g t) := by
  intro t ht
  cases t with
  | tag n attrs => rw [hg.1]; trivial
  | closeTag n => rw [hg.2 (Tok.closeTag n) rfl]; exact ht
  | text s => rw [hg.2 (Tok.text s) rfl]; exact ht
  | comment s => rw [hg.2 (Tok.comment s) rfl]; exact ht
  | cdata s => rw [hg.2 (Tok.cdata s) rfl]; exact ht

theorem attrsOnly_pres_notComment (g : Tok → Tok)
    (F : String → List (String × String) → List (String × String))
    (hg : AttrsOnly g F) :
    ∀ t, notCommentTok t → notCommentTok (g t) := by
  intro t ht
  cases t with
  | tag n attrs => rw [hg.1]; trivial
  | closeTag n => rw [hg.2 (Tok.closeTag n) rfl]; exact ht
  | text s => rw [hg.2 (Tok.text s) rfl]; exact ht
  | comment s => rw [hg.2 (Tok.comment s) rfl]; exact ht
  | cdata s => rw [hg.2 (Tok.cdata s) rfl]; exact ht

theorem attrsOnly_pres_cleanFixed (g : Tok → Tok)
    (F : String → List (String × String) → List (String × String))
    (hg : AttrsOnly g F) :
    ∀ t, cleanFixedTok t → cleanFixedTok (g t) := by
  intro t ht
  cases t with
  | tag n attrs => rw [hg.1]; exact ht
  | closeTag n => rw [hg.2 (Tok.closeTag n) rfl]; exact ht
  | text s => rw [hg.2 (Tok.text s) rfl]; exact ht
  | comment s => rw [hg.2 (Tok.comment s) rfl]; exact ht
  | cdata s => rw [hg.2 (Tok.cdata s) rfl]; exact ht

theorem attrsOnly_pres_wf (g : Tok → Tok)
    (F : String → List (String × String) → List (String × String))
    (hg : AttrsOnly g F)
    (hF : ∀ n attrs, ((attrs.map Prod.fst).Nodup) → ((F n attrs).map Prod.fst).Nodup) :
    ∀ t, wfAttrsTok t → wfAttrsTok (g t) := by
  intro t ht
  cases t with
  | tag n attrs => rw [hg.1]; exact hF n attrs ht
  | closeTag n => rw [hg.2 (Tok.closeTag n) rfl]; exact ht
  | text s => rw [hg.2 (Tok.text s) rfl]; exact ht
  | comment s => rw [hg.2 (Tok.comment s) rfl]; exact ht
  | cdata s => rw [hg.2 (Tok.cdata s) rfl]; exact ht

theorem attrsOnly_pres_imgAlt (g : Tok → Tok)
    (F : String → List (String × String) → List (String × String))
    (hg : AttrsOnly g F)
    (hF : ∀ attrs, getAttr attrs "alt" = some "" → getAttr (F "img" attrs) "alt" = some "") :
    ∀ t, imgAltBlankTok t → imgAltBlankTok (g t) := by
  intro t ht
  cases t with
  | tag n attrs =>
    rw [hg.1]
    intro hn
    subst hn
    exact hF attrs (ht rfl)
  | closeTag n => rw [hg.2 (Tok.closeTag n) rfl]; exact ht
  | text s => rw [hg.2 (Tok.text s) rfl]; exact ht
  | comment s => rw [hg.2 (Tok.comment s) rfl]; exact ht
  | cdata s => rw [hg.2 (Tok.cdata s) rfl]; exact ht

theorem textOnly_pres_attrInv (g : Tok → Tok) (f : String → String)
    (hg : TextOnly g f) (Q : String → String × String → Prop) :
    ∀ t, attrInv Q t → attrInv Q (g t) := by
  intro t ht
  cases t with
  | text s => rw [hg.1]; trivial
  | tag n attrs => rw [hg.2 (Tok.tag n attrs) rfl]; exact ht
  | closeTag n => rw [hg.2 (Tok.closeTag n) rfl]; exact ht
  | comment s => rw [hg.2 (Tok.comment s) rfl]; exact ht
  | cdata s => rw [hg.2 (Tok.cdata s) rfl]; exact ht

theorem textOnly_pres_notCdata (g : Tok → Tok) (f : String → String)
    (hg : TextOnly g f) :
    ∀ t, notCdataTok t → notCdataTok (g t) := by
  intro t ht
  cases t with
  | text s => rw [hg.1]; trivial
  | tag n attrs => rw [hg.2 (Tok.tag n attrs) rfl]; exact ht
  | closeTag n => rw [hg.2 (Tok.closeTag n) rfl]; exact ht
  | comment s => rw [hg.2 (Tok.comment s) rfl]; exact ht
  | cdata s => rw [hg.2 (Tok.cdata s) rfl]; exact ht

theorem textOnly_pres_notComment (g : Tok → Tok) (f : String → String)
    (hg : TextOnly g f) :
    ∀ t, notCommentTok t → notCommentTok (g t) := by
  intro t ht
  cases t with
  | text s => rw [hg.1]; trivial
  | tag n attrs => rw [hg.2 (Tok.tag n attrs) rfl]; exact ht
  | closeTag n => rw [hg.2 (Tok.closeTag n) rfl]; exact ht
  | comment s => rw [hg.2 (Tok.comment s) rfl]; exact ht
  | cdata s => rw [hg.2 (Tok.cdata s) rfl]; exact ht

theorem textOnly_pres_cleanFixed (g : Tok → Tok) (f : String → String)
    (hg : TextOnly g f) :
    ∀ t, cleanFixedTok t → cleanFixedTok (g t) := by
  intro t ht
  cases t with
  | text s => rw [hg.1]; trivial
  | tag n attrs => rw [hg.2 (Tok.tag n attrs) rfl]; exact ht
  | closeTag n => rw [hg.2 (Tok.closeTag n) rfl]; exact ht
  | comment s => rw [hg.2 (Tok.comment s) rfl]; exact ht
  | cdata s => rw [hg.2 (Tok.cdata s) rfl]; exact ht

theorem textOnly_pres_wf (g : Tok → Tok) (f : String → String)
    (hg : TextOnly g f) :
    ∀ t, wfAttrsTok t → wfAttrsTok (g t) := by
  intro t ht
  cases t with
  | text s => rw [hg.1]; trivial
  | tag n attrs => rw [hg.2 (Tok.tag n attrs) rfl]; exact ht
  | closeTag n => rw [hg.2 (Tok.closeTag n) rfl]; exact ht
  | comment s => rw [hg.2 (Tok.comment s) rfl]; exact ht
  | cdata s => rw [hg.2 (Tok.cdata s) rfl]; exact ht

theorem textOnly_pres_imgAlt (g : Tok → Tok) (f : String → String)
    (hg : TextOnly g f) :
    ∀ t, imgAltBlankTok t → imgAltBlankTok (g t) := by
  intro t ht
  cases t with
  | text s => rw [hg.1]; trivial
  | tag n attrs => rw [hg.2 (Tok.tag n attrs) rfl]; exact ht
  | closeTag n => rw [hg.2 (Tok.closeTag n) rfl]; exact ht
  | comment s => rw [hg.2 (Tok.comment s) rfl]; exact ht
  | cdata s => rw [hg.2 (Tok.cdata s) rfl]; exact ht

theorem firstHtmlAttrs_cons_nontag (t : Tok) (rest : Doc) (ht : isTagTok t = false) :
    firstHtmlAttrs (t :: rest) = firstHtmlAttrs rest := by
  cases t with
  | tag n attrs => simp [isTagTok] at ht
  | closeTag n => rfl
  | text s => rfl
  | comment s => rfl
  | cdata s => rfl

theorem firstHtmlAttrs_cons_closeTag (n : String) (rest : Doc) :
    firstHtmlAttrs (Tok.closeTag n :: rest) = firstHtmlAttrs rest := rfl

theorem firstHtmlAttrs_cons_text (s : String) (rest : Doc) :
    firstHtmlAttrs (Tok.text s :: rest) = firstHtmlAttrs rest := rfl

theorem firstHtmlAttrs_cons_comment (s : String) (rest : Doc) :
    firstHtmlAttrs (Tok.comment s :: rest) = firstHtmlAttrs rest := rfl

theorem firstHtmlAttrs_cons_cdata (s : String) (rest : Doc) :
    firstHtmlAttrs (Tok.cdata s :: rest) = firstHtmlAttrs rest := rfl

theorem isTagTok_false_of_attrsOnly (g : Tok → Tok)
    (F : String → List (String × String) → List (String × String))
    (hg : AttrsOnly g F) (t : Tok) (ht : isTagTok t = false) :
    isTagTok (g t) = false := by
  rw [hg.2 _ ht]
  exact ht

theorem firstHtmlAttrs_map_attrsOnly (g : Tok → Tok)
    (F : String → List (String × String) → List (String × String))
    (hg : AttrsOnly g F) (d : Doc) :
    firstHtmlAttrs (d.map g) = (firstHtmlAttrs d).map (fun attrs => F "html" attrs) := by
  induction d with
  | nil => rfl
  | cons t rest ih =>
    cases t with
    | tag n attrs =>
      rw [List.map_cons, hg.1]
      by_cases h : n = "html"
      · subst h
        simp [firstHtmlAttrs]
      · simp only [firstHtmlAttrs, if_neg h]
        exact ih
    | closeTag n =>
      rw [List.map_cons, hg.2 (Tok.closeTag n) rfl]
      simp only [firstHtmlAttrs_cons_closeTag]
      exact ih
    | text s =>
      rw [List.map_cons, hg.2 (Tok.text s) rfl]
      simp only [firstHtmlAttrs_cons_text]
      exact ih
    | comment s =>
      rw [List.map_cons, hg.2 (Tok.comment s) rfl]
      simp only [firstHtmlAttrs_cons_comment]
      exact ih
    | cdata s =>
      rw [List.map_cons, hg.2 (Tok.cdata s) rfl]
      simp only [firstHtmlAttrs_cons_cdata]
      exact ih

theorem firstHtmlAttrs_map_tagfix (g : Tok → Tok)
    (htag : ∀ n attrs, g (Tok.tag n attrs) = Tok.tag n attrs)
    (hnon : ∀ t, isTagTok t = false → isTagTok (g t) = false) (d : Doc) :
    firstHtmlAttrs (d.map g) = firstHtmlAttrs d := by
  induction d with
  | nil => rfl
  | cons t rest ih =>
    cases t with
    | tag n attrs =>
      rw [List.map_cons, htag]
      by_cases h : n = "html"
      · subst h
        simp [firstHtmlAttrs]
      · simp only [firstHtmlAttrs, if_neg h]
        exact ih
    | closeTag n =>
      rw [List.map_cons,
        firstHtmlAttrs_cons_nontag (g (Tok.closeTag n)) _ (hnon (Tok.closeTag n) rfl),
        firstHtmlAttrs_cons_closeTag]
      exact ih
    | text s =>
      rw [List.map_cons,
        firstHtmlAttrs_cons_nontag (g (Tok.text s)) _ (hnon (Tok.text s) rfl),
        firstHtmlAttrs_cons_text]
      exact ih
    | comment s =>
      rw [List.map_cons,
        firstHtmlAttrs_cons_nontag (g (Tok.comment s)) _ (hnon (Tok.comment s) rfl),
        firstHtmlAttrs_cons_comment]
      exact ih
    | cdata s =>
      rw [List.map_cons,
        firstHtmlAttrs_cons_nontag (g (Tok.cdata s)) _ (hnon (Tok.cdata s) rfl),
        firstHtmlAttrs_cons_cdata]
      exact ih

theorem firstHtmlAttrs_filter_keeptags (q : Tok → Bool)
    (hq : ∀ n attrs, q (Tok.tag n attrs) = true) (d : Doc) :
    firstHtmlAttrs (d.filter q) = firstHtmlAttrs d := by
  induction d with
  | nil => rfl
  | cons t rest ih =>
    cases t with
    | tag n attrs =>
      rw [List.filter_cons, if_pos (hq n attrs)]
      by_cases h : n = "html"
      · subst h
        simp [firstHtmlAttrs]
      · simp only [firstHtmlAttrs, if_neg h]
        exact ih
    | closeTag n =>
      rw [List.filter_cons]
      by_cases hk : q (Tok.closeTag n) = true
      · rw [if_pos hk, firstHtmlAttrs_cons_closeTag]
        exact ih
      · rw [if_neg hk, firstHtmlAttrs_cons_closeTag]
        exact ih
    | text s =>
      rw [List.filter_cons]
      by_cases hk : q (Tok.text s) = true
      · rw [if_pos hk, firstHtmlAttrs_cons_text]
        exact ih
      · rw [if_neg hk, firstHtmlAttrs_cons_text]
        exact ih
    | comment s =>
      rw [List.filter_cons]
      by_cases hk : q (Tok.comment s) = true
      · rw [if_pos hk, firstHtmlAttrs_cons_comment]
        exact ih
      · rw [if_neg hk, firstHtmlAttrs_cons_comment]
        exact ih
    | cdata s =>
      rw [List.filter_cons]
      by_cases hk : q (Tok.cdata s) = true
      · rw [if_pos hk, firstHtmlAttrs_cons_cdata]
        exact ih
      · rw [if_neg hk, firstHtmlAttrs_cons_cdata]
        exact ih

theorem firstHtmlAttrs_mem (d : Doc) (attrs : List (String × String))
    (h : firstHtmlAttrs d = some attrs) : Tok.tag "html" attrs ∈ d := by
  induction d with
  | nil => simp [firstHtmlAttrs] at h
  | cons t rest ih =>
    cases t with
    | tag n a2 =>
      by_cases hn : n = "html"
      · subst hn
        simp only [firstHtmlAttrs, if_pos rfl] at h
        obtain rfl : a2 = attrs := Option.some.inj h
        exact List.mem_cons_self _ _
      · simp only [firstHtmlAttrs, if_neg hn] at h
        exact List.mem_cons_of_mem _ (ih h)
    | closeTag n =>
      rw [firstHtmlAttrs_cons_closeTag] at h
      exact List.mem_cons_of_mem _ (ih h)
    | text s =>
      rw [firstHtmlAttrs_cons_text] at h
      exact List.mem_cons_of_mem _ (ih h)
    | comment s =>
      rw [firstHtmlAttrs_cons_comment] at h
      exact List.mem_cons_of_mem _ (ih h)
    | cdata s =>
      rw [firstHtmlAttrs_cons_cdata] at h
      exact List.mem_cons_of_mem _ (ih h)

theorem cleanTag_eq_iff (n target : String) (h1 : target ≠ "div") (h2 : target ≠ "span")
    (h3 : target ≠ "s") (h4 : target ≠ "center") (h5 : target ≠ "font")
    (h6 : target ≠ "strike") : cleanTag n = target ↔ n = target := by
  by_cases hc : n = "center"
  · subst hc
    rw [show cleanTag "center" = "div" from rfl]
    exact iff_of_false (fun he => h1 he.symm) (fun he => h4 he.symm)
  by_cases hf : n = "font"
  · subst hf
    rw [show cleanTag "font" = "span" from rfl]
    exact iff_of_false (fun he => h2 he.symm) (fun he => h5 he.symm)
  by_cases hs : n = "strike"
  · subst hs
    rw [show cleanTag "strike" = "s" from rfl]
    exact iff_of_false (fun he => h3 he.symm) (fun he => h6 he.symm)
  rw [show cleanTag n = n from by simp [cleanTag, hc, hf, hs]]

theorem cleanTag_idem (n : String) : cleanTag (cleanTag n) = cleanTag n := by
  by_cases hc : n = "center"
  · subst hc
    decide
  by_cases hf : n = "font"
  · subst hf
    decide
  by_cases hs : n = "strike"
  · subst hs
    decide
  simp [cleanTag, hc, hf, hs]

theorem firstHtmlAttrs_map_clean (d : Doc) :
    firstHtmlAttrs (d.map cleanTok) = firstHtmlAttrs d := by
  induction d with
  | nil => rfl
  | cons t rest ih =>
    cases t with
    | tag n attrs =>
      rw [List.map_cons, show cleanTok (Tok.tag n attrs) = Tok.tag (cleanTag n) attrs from rfl]
      by_cases h : n = "html"
      · subst h
        rw [show cleanTag "html" = "html" from rfl]
        simp [firstHtmlAttrs]
      · have h2 : ¬ cleanTag n = "html" := fun he =>
          h ((cleanTag_eq_iff n "html" (by decide) (by decide) (by decide) (by decide)
            (by decide) (by decide)).mp he)
        simp only [firstHtmlAttrs, if_neg h, if_neg h2]
        exact ih
    | closeTag n =>
      rw [List.map_cons, show cleanTok (Tok.closeTag n) = Tok.closeTag (cleanTag n) from rfl]
      simp only [firstHtmlAttrs_cons_closeTag]
      exact ih
    | text s =>
      rw [List.map_cons, show cleanTok (Tok.text s) = Tok.text s from rfl]
      simp only [firstHtmlAttrs_cons_text]
      exact ih
    | comment s =>
      rw [List.map_cons, show cleanTok (Tok.comment s) = Tok.comment s from rfl]
      simp only [firstHtmlAttrs_cons_comment]
      exact ih
    | cdata s =>
      rw [List.map_cons, show cleanTok (Tok.cdata s) = Tok.cdata s from rfl]
      simp only [firstHtmlAttrs_cons_cdata]
      exact ih

theorem bareChar_fix (c : Char) : bareChar (bareChar c) = bareChar c := by
  by_cases h1 : c = '‘'
  · subst h1
    decide
  by_cases h2 : c = '’'
  · subst h2
    decide
  by_cases h3 : c = '“'
  · subst h3
    decide
  by_cases h4 : c = '”'
  · subst h4
    decide
  by_cases h5 : c = '–'
  · subst h5
    decide
  by_cases h6 : c = '—'
  · subst h6
    decide
  by_cases h7 : c = ' '
  · subst h7
    decide
  simp [bareChar, h1, h2, h3, h4, h5, h6, h7]

theorem bareChar_space : bareChar ' ' = ' ' := by decide

theorem mapStr_fixed (f : Char → Char) (s : String) (h : ∀ c ∈ s.data, f c = c) :
    mapStr f s = s := by
  unfold mapStr
  rw [List.map_congr_left h, List.map_id']

theorem mem_mapStr (f : Char → Char) (s : String) (c : Char) :
    c ∈ (mapStr f s).data ↔ ∃ x ∈ s.data, f x = c := by
  show c ∈ s.data.map f ↔ _
  exact List.mem_map

theorem wfDoc_iff (d : Doc) : wfDoc d = true ↔ DocInv wfAttrsTok d := by
  unfold wfDoc DocInv
  rw [List.all_eq_true]
  constructor
  · intro h t ht
    have h2 := h t ht
    cases t with
    | tag n attrs =>
      show (attrs.map Prod.fst).Nodup
      exact of_decide_eq_true h2
    | closeTag n => trivial
    | text s => trivial
    | comment s => trivial
    | cdata s => trivial
  · intro h t ht
    have h2 := h t ht
    cases t with
    | tag n attrs =>
      show decide ((attrs.map Prod.fst).Nodup) = true
      exact decide_eq_true h2
    | closeTag n => rfl
    | text s => rfl
    | comment s => rfl
    | cdata s => rfl

theorem escapeCdataTok_notCdata (t : Tok) : notCdataTok (escapeCdataTok t) := by
  cases t <;> trivial

theorem escapeCdataTok_fixed (t : Tok) (ht : notCdataTok t) : escapeCdataTok t = t := by
  cases t with
  | cdata s => exact ht.elim
  | tag n attrs => rfl
  | closeTag n => rfl
  | text s => rfl
  | comment s => rfl

theorem escapeCdata_htag (n : String) (attrs : List (String × String)) :
    escapeCdataTok (Tok.tag n attrs) = Tok.tag n attrs := rfl

theorem escapeCdata_hnon (t : Tok) (ht : isTagTok t = false) :
    isTagTok (escapeCdataTok t) = false := by
  cases t <;> first | rfl | (simp [isTagTok] at ht)

theorem escapeCdata_pres_wf (t : Tok) (ht : wfAttrsTok t) : wfAttrsTok (escapeCdataTok t) := by
  cases t with
  | cdata s => trivial
  | tag n attrs => exact ht
  | closeTag n => trivial
  | text s => trivial
  | comment s => trivial

theorem escapeCdata_pres_imgAlt (t : Tok) (ht : imgAltBlankTok t) :
    imgAltBlankTok (escapeCdataTok t) := by
  cases t with
  | cdata s => trivial
  | tag n attrs => exact ht
  | closeTag n => trivial
  | text s => trivial
  | comment s => trivial

theorem escapeCdata_pres_notComment (t : Tok) (ht : notCommentTok t) :
    notCommentTok (escapeCdataTok t) := by
  cases t with
  | cdata s => trivial
  | tag n attrs => trivial
  | closeTag n => trivial
  | text s => trivial
  | comment s => exact ht

theorem cleanTok_establishes (t : Tok) : cleanFixedTok (cleanTok t) := by
  cases t with
  | tag n attrs => exact cleanTag_idem n
  | closeTag n => exact cleanTag_idem n
  | text s => trivial
  | comment s => trivial
  | cdata s => trivial

theorem cleanTok_fixed (t : Tok) (ht : cleanFixedTok t) : cleanTok t = t := by
  cases t with
  | tag n attrs =>
    show Tok.tag (cleanTag n) attrs = Tok.tag n attrs
    rw [show cleanTag n = n from ht]
  | closeTag n =>
    show Tok.closeTag (cleanTag n) = Tok.closeTag n
    rw [show cleanTag n = n from ht]
  | text s => rfl
  | comment s => rfl
  | cdata s => rfl

theorem cleanTok_pres_notCdata (t : Tok) (ht : notCdataTok t) : notCdataTok (cleanTok t) := by
  cases t with
  | cdata s => exact ht.elim
  | tag n attrs => trivial
  | closeTag n => trivial
  | text s => trivial
  | comment s => trivial

theorem cleanTok_pres_wf (t : Tok) (ht : wfAttrsTok t) : wfAttrsTok (cleanTok t) := by
  cases t with
  | tag n attrs => exact ht
  | closeTag n => trivial
  | text s => trivial
  | comment s => trivial
  | cdata s => trivial

theorem cleanTok_pres_imgAlt (t : Tok) (ht : imgAltBlankTok t) : imgAltBlankTok (cleanTok t) := by
  cases t with
  | tag n attrs =>
    intro he
    exact ht ((cleanTag_eq_iff n "img" (by decide) (by decide) (by decide) (by decide)
      (by decide) (by decide)).mp he)
  | closeTag n => trivial
  | text s => trivial
  | comment s => trivial
  | cdata s => trivial

theorem dropPropTok_establishes (t : Tok) : propFreeTok (dropPropTok t) := by
  cases t with
  | tag n attrs =>
    intro a ha
    rcases List.mem_filter.mp ha with ⟨_, hp⟩
    exact Bool.not_eq_true' .. ▸ hp
  | closeTag n => trivial
  | text s => trivial
  | comment s => trivial
  | cdata s => trivial

theorem dropPropTok_fixed (t : Tok) (ht : propFreeTok t) : dropPropTok t = t := by
  cases t with
  | tag n attrs =>
    show Tok.tag n (attrs.filter (fun a => !(proprietaryAttrs.contains a.1))) = Tok.tag n attrs
    rw [List.filter_eq_self.mpr]
    intro a ha
    rw [ht a ha]
    rfl
  | closeTag n => rfl
  | text s => rfl
  | comment s => rfl
  | cdata s => rfl

theorem bareTok_establishes (t : Tok) : bareFixedTok (bareTok t) := by
  cases t with
  | text s =>
    intro c hc
    rcases (mem_mapStr bareChar s c).mp hc with ⟨x, _, he⟩
    rw [← he]
    exact bareChar_fix x
  | tag n attrs => trivial
  | closeTag n => trivial
  | comment s => trivial
  | cdata s => trivial

theorem bareTok_fixed (t : Tok) (ht : bareFixedTok t) : bareTok t = t := by
  cases t with
  | text s =>
    show Tok.text (mapStr bareChar s) = Tok.text s
    rw [mapStr_fixed bareChar s ht]
  | tag n attrs => rfl
  | closeTag n => rfl
  | comment s => rfl
  | cdata s => rfl

theorem collapseTok_establishes (t : Tok) : collapseFixedTok (collapseTok t) := by
  cases t with
  | text s => exact collapseStr_idem s
  | tag n attrs => trivial
  | closeTag n => trivial
  | comment s => trivial
  | cdata s => trivial

theorem collapseTok_fixed (t : Tok) (ht : collapseFixedTok t) : collapseTok t = t := by
  cases t with
  | text s =>
    show Tok.text (collapseStr s) = Tok.text s
    rw [show collapseStr s = s from ht]
  | tag n attrs => rfl
  | closeTag n => rfl
  | comment s => rfl
  | cdata s => rfl

theorem collapse_pres_bare (t : Tok) (ht : bareFixedTok t) : bareFixedTok (collapseTok t) := by
  cases t with
  | text s =>
    intro c hc
    rcases collapseStr_chars s c hc with h1 | h1
    · exact ht c h1
    · rw [h1]
      exact bareChar_space
  | tag n attrs => trivial
  | closeTag n => trivial
  | comment s => trivial
  | cdata s => trivial

theorem removeComments_establishes (d : Doc) : DocInv notCommentTok (removeCommentsPass d) := by
  intro t ht
  rcases List.mem_filter.mp ht with ⟨_, hq⟩
  cases t with
  | comment s => simp at hq
  | tag n attrs => trivial
  | closeTag n => trivial
  | text s => trivial
  | cdata s => trivial

theorem removeComments_fixed (d : Doc) (hd : DocInv notCommentTok d) :
    removeCommentsPass d = d := by
  apply List.filter_eq_self.mpr
  intro t ht
  cases t with
  | comment s => exact (hd _ ht).elim
  | tag n attrs => rfl
  | closeTag n => rfl
  | text s => rfl
  | cdata s => rfl

theorem sortClassAttr_fst (a : String × String) : (sortClassAttr a).1 = a.1 := by
  unfold sortClassAttr
  by_cases h : a.1 = "class"
  · rw [if_pos h]
  · rw [if_neg h]

theorem sortClassTok_establishes (t : Tok) : classSortedTok (sortClassTok t) := by
  cases t with
  | tag n attrs =>
    intro a ha hc
    rcases List.mem_map.mp ha with ⟨b, _, he⟩
    by_cases hb : b.1 = "class"
    · have he2 : a = (b.1, sortClassVal b.2) := by rw [← he, sortClassAttr, if_pos hb]
      rw [he2]
      exact sortClassVal_idem b.2
    · have he2 : a = b := by rw [← he, sortClassAttr, if_neg hb]
      rw [he2] at hc
      exact absurd hc hb
  | closeTag n => trivial
  | text s => trivial
  | comment s => trivial
  | cdata s => trivial

theorem sortClassTok_fixed (t : Tok) (ht : classSortedTok t) : sortClassTok t = t := by
  cases t with
  | tag n attrs =>
    show Tok.tag n (attrs.map sortClassAttr) = Tok.tag n attrs
    rw [List.map_congr_left, List.map_id]
    intro a ha
    show sortClassAttr a = a
    by_cases hb : a.1 = "class"
    · rw [sortClassAttr, if_pos hb, ht a ha hb]
    · rw [sortClassAttr, if_neg hb]
  | closeTag n => rfl
  | text s => rfl
  | comment s => rfl
  | cdata s => rfl

theorem removeRedundantTok_establishes (t : Tok) : noRedundantAttrTok (removeRedundantTok t) := by
  cases t with
  | tag n attrs =>
    intro a ha
    rcases List.mem_filter.mp ha with ⟨_, hp⟩
    exact Bool.not_eq_true' .. ▸ hp
  | closeTag n => trivial
  | text s => trivial
  | comment s => trivial
  | cdata s => trivial

theorem removeRedundantTok_fixed (t : Tok) (ht : noRedundantAttrTok t) :
    removeRedundantTok t = t := by
  cases t with
  | tag n attrs =>
    show Tok.tag n (attrs.filter (fun a => !(redundantAttr n a.1 a.2))) = Tok.tag n attrs
    rw [List.filter_eq_self.mpr]
    intro a ha
    rw [ht a ha]
    rfl
  | closeTag n => rfl
  | text s => rfl
  | comment s => rfl
  | cdata s => rfl

theorem removeEmptyTok_establishes (t : Tok) : noEmptyListedTok (removeEmptyTok t) := by
  cases t with
  | tag n attrs =>
    intro a ha
    rcases List.mem_filter.mp ha with ⟨_, hp⟩
    exact Bool.not_eq_true' .. ▸ hp
  | closeTag n => trivial
  | text s => trivial
  | comment s => trivial
  | cdata s => trivial

theorem removeEmptyTok_fixed (t : Tok) (ht : noEmptyListedTok t) : removeEmptyTok t = t := by
  cases t with
  | tag n attrs =>
    show Tok.tag n (attrs.filter
      (fun a => !(emptyRemovableAttrs.contains a.1 && decide (a.2 = "")))) = Tok.tag n attrs
    rw [List.filter_eq_self.mpr]
    intro a ha
    rw [ht a ha]
    rfl
  | closeTag n => rfl
  | text s => rfl
  | comment s => rfl
  | cdata s => rfl

theorem sortAttrsTok_establishes (t : Tok) : attrsSortedTok (sortAttrsTok t) := by
  cases t with
  | tag n attrs => exact List.sorted_insertionSort attrKeyLE attrs
  | closeTag n => trivial
  | text s => trivial
  | comment s => trivial
  | cdata s => trivial

theorem sortAttrsTok_fixed (t : Tok) (ht : attrsSortedTok t) : sortAttrsTok t = t := by
  cases t with
  | tag n attrs =>
    show Tok.tag n (List.insertionSort attrKeyLE attrs) = Tok.tag n attrs
    rw [List.Sorted.insertionSort_eq ht]
  | closeTag n => rfl
  | text s => rfl
  | comment s => rfl
  | cdata s => rfl

theorem setImgAlt_establishes (t : Tok) : imgAltBlankTok (setImgAlt t) := by
  cases t with
  | tag n attrs =>
    by_cases h : n = "img"
    · rw [show setImgAlt (Tok.tag n attrs) = Tok.tag n (setAttr attrs "alt" "") from by
        simp [setImgAlt, h]]
      intro _
      exact getAttr_setAttr_self attrs "alt" ""
    · rw [show setImgAlt (Tok.tag n attrs) = Tok.tag n attrs from by simp [setImgAlt, h]]
      intro he
      exact absurd he h
  | closeTag n => trivial
  | text s => trivial
  | comment s => trivial
  | cdata s => trivial

theorem setImgAlt_fixed (t : Tok) (ht : imgAltBlankTok t) : setImgAlt t = t := by
  cases t with
  | tag n attrs =>
    by_cases h : n = "img"
    · rw [show setImgAlt (Tok.tag n attrs) = Tok.tag n (setAttr attrs "alt" "") from by
        simp [setImgAlt, h]]
      rw [setAttr_of_getAttr attrs "alt" "" (ht h)]
    · rw [show setImgAlt (Tok.tag n attrs) = Tok.tag n attrs from by simp [setImgAlt, h]]
  | closeTag n => rfl
  | text s => rfl
  | comment s => rfl
  | cdata s => rfl

theorem redundantAttr_html (a v : String) : redundantAttr "html" a v = false := by
  simp [redundantAttr]

theorem redundantAttr_img (a v : String) : redundantAttr "img" a v = false := by
  simp [redundantAttr]

theorem textOnly_htag (g : Tok → Tok) (f : String → String) (hg : TextOnly g f)
    (n : String) (attrs : List (String × String)) :
    g (Tok.tag n attrs) = Tok.tag n attrs :=
  hg.2 (Tok.tag n attrs) rfl

theorem textOnly_hnon (g : Tok → Tok) (f : String → String) (hg : TextOnly g f)
    (t : Tok) (ht : isTagTok t = false) : isTagTok (g t) = false := by
  cases t with
  | text s => rw [hg.1]; rfl
  | tag n attrs => simp [isTagTok] at ht
  | closeTag n => rw [hg.2 (Tok.closeTag n) rfl]; rfl
  | comment s => rw [hg.2 (Tok.comment s) rfl]; rfl
  | cdata s => rw [hg.2 (Tok.cdata s) rfl]; rfl

theorem firstHtmlLang_of_eq (lang : String) (d1 d2 : Doc)
    (he : firstHtmlAttrs d2 = firstHtmlAttrs d1) (h : FirstHtmlLangSet lang d1) :
    FirstHtmlLangSet lang d2 :=
  fun attrs ha => h attrs (he ▸ ha)

theorem firstHtmlLang_map_attrsOnly (lang : String) (g : Tok → Tok)
    (F : String → List (String × String) → List (String × String))
    (hg : AttrsOnly g F) (d : Doc)
    (hF : ∀ attrs, getAttr attrs "lang" = some lang → getAttr attrs "xml:lang" = some lang →
      getAttr (F "html" attrs) "lang" = some lang ∧
        getAttr (F "html" attrs) "xml:lang" = some lang)
    (h : FirstHtmlLangSet lang d) : FirstHtmlLangSet lang (d.map g) := by
  intro attrs2 h2
  rw [firstHtmlAttrs_map_attrsOnly g F hg] at h2
  rcases Option.map_eq_some'.mp h2 with ⟨attrs1, h1, he⟩
  rcases h attrs1 h1 with ⟨hl, hx⟩
  rw [← he]
  exact hF attrs1 hl hx

theorem setDocLang_cons_nontag (lang : String) (t : Tok) (rest : Doc)
    (ht : isTagTok t = false) :
    setDocLang lang (t :: rest) = t :: setDocLang lang rest := by
  cases t with
  | tag n attrs => simp [isTagTok] at ht
  | closeTag n => rfl
  | text s => rfl
  | comment s => rfl
  | cdata s => rfl

theorem setDocLang_establishes (lang : String) (d : Doc) :
    FirstHtmlLangSet lang (setDocLang lang d) := by
  induction d with
  | nil =>
    intro attrs h
    simp [setDocLang, firstHtmlAttrs] at h
  | cons t rest ih =>
    cases t with
    | tag n attrs =>
      by_cases h : n = "html"
      · subst h
        rw [show setDocLang lang (Tok.tag "html" attrs :: rest) =
            Tok.tag "html" (setAttr (setAttr attrs "lang" lang) "xml:lang" lang) :: rest from by
          simp [setDocLang]]
        intro attrs2 h2
        simp only [firstHtmlAttrs, if_pos rfl] at h2
        obtain rfl := Option.some.inj h2
        refine ⟨?_, getAttr_setAttr_self _ _ _⟩
        rw [getAttr_setAttr_other _ _ _ _ (by decide)]
        exact getAttr_setAttr_self _ _ _
      · rw [show setDocLang lang (Tok.tag n attrs :: rest) =
            Tok.tag n attrs :: setDocLang lang rest from by simp [setDocLang, h]]
        intro attrs2 h2
        simp only [firstHtmlAttrs, if_neg h] at h2
        exact ih attrs2 h2
    | closeTag n =>
      rw [setDocLang_cons_nontag lang (Tok.closeTag n) rest rfl]
      intro attrs2 h2
      rw [firstHtmlAttrs_cons_closeTag] at h2
      exact ih attrs2 h2
    | text s =>
      rw [setDocLang_cons_nontag lang (Tok.text s) rest rfl]
      intro attrs2 h2
      rw [firstHtmlAttrs_cons_text] at h2
      exact ih attrs2 h2
    | comment s =>
      rw [setDocLang_cons_nontag lang (Tok.comment s) rest rfl]
      intro attrs2 h2
      rw [firstHtmlAttrs_cons_comment] at h2
      exact ih attrs2 h2
    | cdata s =>
      rw [setDocLang_cons_nontag lang (Tok.cdata s) rest rfl]
      intro attrs2 h2
      rw [firstHtmlAttrs_cons_cdata] at h2
      exact ih attrs2 h2

theorem setDocLang_fixed (lang : String) (d : Doc) (h : FirstHtmlLangSet lang d) :
    setDocLang lang d = d := by
  induction d with
  | nil => rfl
  | cons t rest ih =>
    cases t with
    | tag n attrs =>
      by_cases hn : n = "html"
      · subst hn
        have h2 := h attrs (by simp [firstHtmlAttrs])
        rw [show setDocLang lang (Tok.tag "html" attrs :: rest) =
            Tok.tag "html" (setAttr (setAttr attrs "lang" lang) "xml:lang" lang) :: rest from by
          simp [setDocLang]]
        rw [setAttr_of_getAttr attrs "lang" lang h2.1,
          setAttr_of_getAttr attrs "xml:lang" lang h2.2]
      · rw [show setDocLang lang (Tok.tag n attrs :: rest) =
            Tok.tag n attrs :: setDocLang lang rest from by simp [setDocLang, hn]]
        rw [ih]
        intro attrs2 h2
        apply h attrs2
        simp only [firstHtmlAttrs, if_neg hn]
        exact h2
    | closeTag n =>
      rw [setDocLang_cons_nontag lang (Tok.closeTag n) rest rfl, ih]
      intro attrs2 h2
      apply h attrs2
      rw [firstHtmlAttrs_cons_closeTag]
      exact h2
    | text s =>
      rw [setDocLang_cons_nontag lang (Tok.text s) rest rfl, ih]
      intro attrs2 h2
      apply h attrs2
      rw [firstHtmlAttrs_cons_text]
      exact h2
    | comment s =>
      rw [setDocLang_cons_nontag lang (Tok.comment s) rest rfl, ih]
      intro attrs2 h2
      apply h attrs2
      rw [firstHtmlAttrs_cons_comment]
      exact h2
    | cdata s =>
      rw [setDocLang_cons_nontag lang (Tok.cdata s) rest rfl, ih]
      intro attrs2 h2
      apply h attrs2
      rw [firstHtmlAttrs_cons_cdata]
      exact h2

theorem setDocLang_pres_docInv (lang : String) (P : Tok → Prop)
    (hP : ∀ n attrs, P (Tok.tag n attrs) →
      P (Tok.tag n (setAttr (setAttr attrs "lang" lang) "xml:lang" lang)))
    (d : Doc) : DocInv P d → DocInv P (setDocLang lang d) := by
  induction d with
  | nil => exact fun h => h
  | cons t rest ih =>
    intro h
    have hrest : DocInv P rest := fun x hx => h x (List.mem_cons_of_mem t hx)
    have hh := h t (List.mem_cons_self t rest)
    cases t with
    | tag n attrs =>
      by_cases hn : n = "html"
      · subst hn
        rw [show setDocLang lang (Tok.tag "html" attrs :: rest) =
            Tok.tag "html" (setAttr (setAttr attrs "lang" lang) "xml:lang" lang) :: rest from by
          simp [setDocLang]]
        intro x hx
        rcases List.mem_cons.mp hx with h1 | h1
        · rw [h1]
          exact hP _ _ hh
        · exact h x (List.mem_cons_of_mem _ h1)
      · rw [show setDocLang lang (Tok.tag n attrs :: rest) =
            Tok.tag n attrs :: setDocLang lang rest from by simp [setDocLang, hn]]
        intro x hx
        rcases List.mem_cons.mp hx with h1 | h1
        · rw [h1]
          exact hh
        · exact ih hrest x h1
    | closeTag n =>
      rw [setDocLang_cons_nontag lang (Tok.closeTag n) rest rfl]
      intro x hx
      rcases List.mem_cons.mp hx with h1 | h1
      · rw [h1]
        exact hh
      · exact ih hrest x h1
    | text s =>
      rw [setDocLang_cons_nontag lang (Tok.text s) rest rfl]
      intro x hx
      rcases List.mem_cons.mp hx with h1 | h1
      · rw [h1]
        exact hh
      · exact ih hrest x h1
    | comment s =>
      rw [setDocLang_cons_nontag lang (Tok.comment s) rest rfl]
      intro x hx
      rcases List.mem_cons.mp hx with h1 | h1
      · rw [h1]
        exact hh
      · exact ih hrest x h1
    | cdata s =>
      rw [setDocLang_cons_nontag lang (Tok.cdata s) rest rfl]
      intro x hx
      rcases List.mem_cons.mp hx with h1 | h1
      · rw [h1]
        exact hh
      · exact ih hrest x h1

theorem setDocLang_pres_wf (lang : String) (d : Doc) (h : DocInv wfAttrsTok d) :
    DocInv wfAttrsTok (setDocLang lang d) := by
  refine setDocLang_pres_docInv lang wfAttrsTok ?_ d h
  intro n attrs hh
  exact nodup_setAttr _ _ _ (nodup_setAttr _ _ _ hh)

theorem nodup_filter_keys (p : String × String → Bool) (attrs : List (String × String))
    (h : (attrs.map Prod.fst).Nodup) : ((attrs.filter p).map Prod.fst).Nodup :=
  List.Nodup.sublist (List.Sublist.map Prod.fst (List.filter_sublist attrs)) h

theorem nodup_sortClass_keys (attrs : List (String × String))
    (h : (attrs.map Prod.fst).Nodup) : ((attrs.map sortClassAttr).map Prod.fst).Nodup := by
  rw [List.map_map]
  have he : (Prod.fst ∘ sortClassAttr) = Prod.fst := funext sortClassAttr_fst
  rw [he]
  exact h

theorem nodup_sort_keys (attrs : List (String × String))
    (h : (attrs.map Prod.fst).Nodup) :
    ((List.insertionSort attrKeyLE attrs).map Prod.fst).Nodup :=
  (((List.perm_insertionSort attrKeyLE attrs).map Prod.fst).nodup_iff).mpr h

theorem firstHtmlLang_map_textOnly (lang : String) (g : Tok → Tok) (f : String → String)
    (hg : TextOnly g f) (d : Doc) (h : FirstHtmlLangSet lang d) :
    FirstHtmlLangSet lang (d.map g) :=
  firstHtmlLang_of_eq lang d _
    (firstHtmlAttrs_map_tagfix g (textOnly_htag g f hg) (textOnly_hnon g f hg) d) h

theorem firstHtmlLang_removeComments (lang : String) (d : Doc)
    (h : FirstHtmlLangSet lang d) : FirstHtmlLangSet lang (removeCommentsPass d) :=
  firstHtmlLang_of_eq lang d _
    (firstHtmlAttrs_filter_keeptags _ (fun _ _ => rfl) d) h

theorem firstHtmlLang_map_sortAttrs (lang : String) (d : Doc)
    (hwf : DocInv wfAttrsTok d) (h : FirstHtmlLangSet lang d) :
    FirstHtmlLangSet lang (d.map sortAttrsTok) := by
  intro attrs2 h2
  rw [firstHtmlAttrs_map_attrsOnly _ _ attrsOnly_sortAttrs] at h2
  rcases Option.map_eq_some'.mp h2 with ⟨attrs1, h1, he⟩
  have hnd : (attrs1.map Prod.fst).Nodup := hwf _ (firstHtmlAttrs_mem d attrs1 h1)
  rcases h attrs1 h1 with ⟨hl, hx⟩
  rw [← he]
  constructor
  · show getAttr (List.insertionSort attrKeyLE attrs1) "lang" = some lang
    rw [← getAttr_perm attrs1 (List.insertionSort attrKeyLE attrs1)
      (List.perm_insertionSort attrKeyLE attrs1).symm hnd "lang"]
    exact hl
  · show getAttr (List.insertionSort attrKeyLE attrs1) "xml:lang" = some lang
    rw [← getAttr_perm attrs1 (List.insertionSort attrKeyLE attrs1)
      (List.perm_insertionSort attrKeyLE attrs1).symm hnd "xml:lang"]
    exact hx

theorem imgAlt_map_sortAttrs (d : Doc) (hwf : DocInv wfAttrsTok d)
    (hA : DocInv imgAltBlankTok d) : DocInv imgAltBlankTok (d.map sortAttrsTok) := by
  intro t ht
  rcases List.mem_map.mp ht with ⟨t0, ht0, he⟩
  rw [← he]
  cases t0 with
  | tag n attrs =>
    rw [show sortAttrsTok (Tok.tag n attrs) =
      Tok.tag n (List.insertionSort attrKeyLE attrs) from rfl]
    intro hn
    have hnd := hwf _ ht0
    rw [← getAttr_perm attrs (List.insertionSort attrKeyLE attrs)
      (List.perm_insertionSort attrKeyLE attrs).symm hnd "alt"]
    exact hA _ ht0 hn
  | closeTag n => trivial
  | text s => trivial
  | comment s => trivial
  | cdata s => trivial

theorem effectiveLanguage_ne_empty (o : Option String) : effectiveLanguage o ≠ "" := by
  cases o with
  | none => decide
  | some s =>
    by_cases h : s = ""
    · simp [effectiveLanguage, h]
    · simp [effectiveLanguage, h]

theorem removeAltPass_establishes (d : Doc) : DocInv imgAltBlankTok (removeAltPass d) :=
  docInv_map _ _ setImgAlt_establishes d

theorem removeAltPass_pres_wf (d : Doc) (h : DocInv wfAttrsTok d) :
    DocInv wfAttrsTok (removeAltPass d) := by
  refine docInv_map_pres _ _ (attrsOnly_pres_wf _ _ attrsOnly_setImgAlt ?_) d h
  intro n attrs hnd
  by_cases hn : n = "img"
  · rw [if_pos hn]
    exact nodup_setAttr _ _ _ hnd
  · rw [if_neg hn]
    exact hnd

theorem removeAltPass_pres_lang (lang : String) (d : Doc)
    (h : FirstHtmlLangSet lang d) : FirstHtmlLangSet lang (removeAltPass d) := by
  refine firstHtmlLang_map_attrsOnly lang _ _ attrsOnly_setImgAlt d ?_ h
  intro attrs hl hx
  rw [if_neg (by decide : ¬ ("html" : String) = "img")]
  exact ⟨hl, hx⟩

theorem removeAltPass_fixed (d : Doc) (h : DocInv imgAltBlankTok d) :
    removeAltPass d = d :=
  map_fixed setImgAlt d (fun t ht => setImgAlt_fixed t (h t ht))

theorem tidyPass_props (lang : String) (d : Doc) (hwf : DocInv wfAttrsTok d)
    (hL : FirstHtmlLangSet lang d) :
    DocInv notCdataTok (tidyPass d) ∧
    DocInv cleanFixedTok (tidyPass d) ∧
    DocInv propFreeTok (tidyPass d) ∧
    DocInv bareFixedTok (tidyPass d) ∧
    DocInv wfAttrsTok (tidyPass d) ∧
    FirstHtmlLangSet lang (tidyPass d) ∧
    (DocInv imgAltBlankTok d → DocInv imgAltBlankTok (tidyPass d)) := by
  have hC1 : DocInv notCdataTok (d.map escapeCdataTok) :=
    docInv_map _ _ escapeCdataTok_notCdata d
  have hwf1 : DocInv wfAttrsTok (d.map escapeCdataTok) :=
    docInv_map_pres _ _ escapeCdata_pres_wf d hwf
  have hL1 : FirstHtmlLangSet lang (d.map escapeCdataTok) :=
    firstHtmlLang_of_eq lang d _
      (firstHtmlAttrs_map_tagfix _ escapeCdata_htag escapeCdata_hnon d) hL
  have hA1 : DocInv imgAltBlankTok d → DocInv imgAltBlankTok (d.map escapeCdataTok) :=
    fun hA => docInv_map_pres _ _ escapeCdata_pres_imgAlt d hA
  have hC2 := docInv_map_pres _ _ cleanTok_pres_notCdata _ hC1
  have hF2 : DocInv cleanFixedTok ((d.map escapeCdataTok).map cleanTok) :=
    docInv_map _ _ cleanTok_establishes _
  have hwf2 := docInv_map_pres _ _ cleanTok_pres_wf _ hwf1
  have hL2 : FirstHtmlLangSet lang ((d.map escapeCdataTok).map cleanTok) :=
    firstHtmlLang_of_eq lang _ _ (firstHtmlAttrs_map_clean _) hL1
  have hA2 : DocInv imgAltBlankTok d →
      DocInv imgAltBlankTok ((d.map escapeCdataTok).map cleanTok) :=
    fun hA => docInv_map_pres _ _ cleanTok_pres_imgAlt _ (hA1 hA)
  have hC3 := docInv_map_pres _ _ (attrsOnly_pres_notCdata _ _ attrsOnly_dropProp) _ hC2
  have hF3 := docInv_map_pres _ _ (attrsOnly_pres_cleanFixed _ _ attrsOnly_dropProp) _ hF2
  have hP3 : DocInv propFreeTok (((d.map escapeCdataTok).map cleanTok).map dropPropTok) :=
    docInv_map _ _ dropPropTok_establishes _
  have hwf3 := docInv_map_pres _ _
    (attrsOnly_pres_wf _ _ attrsOnly_dropProp (fun n attrs h => nodup_filter_keys _ attrs h)) _ hwf2
  have hL3 : FirstHtmlLangSet lang (((d.map escapeCdataTok).map cleanTok).map dropPropTok) := by
    refine firstHtmlLang_map_attrsOnly lang _ _ attrsOnly_dropProp _ ?_ hL2
    intro attrs hl hx
    exact ⟨getAttr_filter attrs _ "lang" lang hl rfl,
      getAttr_filter attrs _ "xml:lang" lang hx rfl⟩
  have hA3 : DocInv imgAltBlankTok d →
      DocInv imgAltBlankTok (((d.map escapeCdataTok).map cleanTok).map dropPropTok) := by
    intro hA
    refine docInv_map_pres _ _ (attrsOnly_pres_imgAlt _ _ attrsOnly_dropProp ?_) _ (hA2 hA)
    intro attrs halt
    exact getAttr_filter attrs _ "alt" "" halt rfl
  refine ⟨docInv_map_pres _ _ (textOnly_pres_notCdata _ _ textOnly_bare) _ hC3,
    docInv_map_pres _ _ (textOnly_pres_cleanFixed _ _ textOnly_bare) _ hF3,
    docInv_map_pres _ _ (textOnly_pres_attrInv _ _ textOnly_bare _) _ hP3,
    docInv_map _ _ bareTok_establishes _,
    docInv_map_pres _ _ (textOnly_pres_wf _ _ textOnly_bare) _ hwf3,
    firstHtmlLang_map_textOnly lang _ _ textOnly_bare _ hL3,
    fun hA => docInv_map_pres _ _ (textOnly_pres_imgAlt _ _ textOnly_bare) _ (hA3 hA)⟩

theorem tidyPass_fixed (d : Doc) (h1 : DocInv notCdataTok d)
    (h2 : DocInv cleanFixedTok d) (h3 : DocInv propFreeTok d)
    (h4 : DocInv bareFixedTok d) : tidyPass d = d := by
  unfold tidyPass
  rw [map_fixed escapeCdataTok d (fun t ht => escapeCdataTok_fixed t (h1 t ht)),
    map_fixed cleanTok d (fun t ht => cleanTok_fixed t (h2 t ht)),
    map_fixed dropPropTok d (fun t ht => dropPropTok_fixed t (h3 t ht)),
    map_fixed bareTok d (fun t ht => bareTok_fixed t (h4 t ht))]

theorem minifyPass_props (lang : String) (hlang : lang ≠ "") (d : Doc)
    (hwf : DocInv wfAttrsTok d) (hL : FirstHtmlLangSet lang d)
    (hC : DocInv notCdataTok d) (hF : DocInv cleanFixedTok d)
    (hP : DocInv propFreeTok d) (hB : DocInv bareFixedTok d) :
    DocInv notCdataTok (minifyPass d) ∧
    DocInv cleanFixedTok (minifyPass d) ∧
    DocInv propFreeTok (minifyPass d) ∧
    DocInv bareFixedTok (minifyPass d) ∧
    DocInv wfAttrsTok (minifyPass d) ∧
    FirstHtmlLangSet lang (minifyPass d) ∧
    DocInv notCommentTok (minifyPass d) ∧
    DocInv collapseFixedTok (minifyPass d) ∧
    DocInv classSortedTok (minifyPass d) ∧
    DocInv noRedundantAttrTok (minifyPass d) ∧
    DocInv noEmptyListedTok (minifyPass d) ∧
    DocInv attrsSortedTok (minifyPass d) ∧
    (DocInv imgAltBlankTok d → DocInv imgAltBlankTok (minifyPass d)) := by
  have hC1 : DocInv notCdataTok (removeCommentsPass d) := docInv_filter _ _ d hC
  have hF1 : DocInv cleanFixedTok (removeCommentsPass d) := docInv_filter _ _ d hF
  have hP1 : DocInv propFreeTok (removeCommentsPass d) := docInv_filter _ _ d hP
  have hB1 : DocInv bareFixedTok (removeCommentsPass d) := docInv_filter _ _ d hB
  have hwf1 : DocInv wfAttrsTok (removeCommentsPass d) := docInv_filter _ _ d hwf
  have hL1 := firstHtmlLang_removeComments lang d hL
  have hM1 := removeComments_establishes d
  have hA1 : DocInv imgAltBlankTok d → DocInv imgAltBlankTok (removeCommentsPass d) :=
    fun hA => docInv_filter _ _ d hA
  have hC2 := docInv_map_pres _ _ (textOnly_pres_notCdata _ _ textOnly_collapse) _ hC1
  have hF2 := docInv_map_pres _ _ (textOnly_pres_cleanFixed _ _ textOnly_collapse) _ hF1
  have hP2 := docInv_map_pres _ _ (textOnly_pres_attrInv _ _ textOnly_collapse _) _ hP1
  have hB2 := docInv_map_pres _ _ collapse_pres_bare _ hB1
  have hwf2 := docInv_map_pres _ _ (textOnly_pres_wf _ _ textOnly_collapse) _ hwf1
  have hL2 := firstHtmlLang_map_textOnly lang _ _ textOnly_collapse _ hL1
  have hM2 := docInv_map_pres _ _ (textOnly_pres_notComment _ _ textOnly_collapse) _ hM1
  have hK2 : DocInv collapseFixedTok ((removeCommentsPass d).map collapseTok) :=
    docInv_map _ _ collapseTok_establishes _
  have hA2 := fun hA =>
    docInv_map_pres _ _ (textOnly_pres_imgAlt _ _ textOnly_collapse) _ (hA1 hA)
  have hC3 := docInv_map_pres _ _ (attrsOnly_pres_notCdata _ _ attrsOnly_sortClass) _ hC2
  have hF3 := docInv_map_pres _ _ (attrsOnly_pres_cleanFixed _ _ attrsOnly_sortClass) _ hF2
  have hP3 : DocInv propFreeTok
      (((removeCommentsPass d).map collapseTok).map sortClassTok) := by
    refine docInv_map_pres _ _ (attrsOnly_pres_attrInv _ _ attrsOnly_sortClass _ ?_) _ hP2
    intro n attrs hb a ha
    rcases List.mem_map.mp ha with ⟨b, hbm, he⟩
    rw [← he]
    show proprietaryAttrs.contains (sortClassAttr b).1 = false
    rw [sortClassAttr_fst]
    exact hb b hbm
  have hB3 := docInv_map_pres _ _ (attrsOnly_pres_textInv _ _ attrsOnly_sortClass _) _ hB2
  have hK3 := docInv_map_pres _ _ (attrsOnly_pres_textInv _ _ attrsOnly_sortClass _) _ hK2
  have hwf3 := docInv_map_pres _ _
    (attrsOnly_pres_wf _ _ attrsOnly_sortClass (fun _ attrs h => nodup_sortClass_keys attrs h)) _ hwf2
  have hM3 := docInv_map_pres _ _ (attrsOnly_pres_notComment _ _ attrsOnly_sortClass) _ hM2
  have hL3 : FirstHtmlLangSet lang
      (((removeCommentsPass d).map collapseTok).map sortClassTok) := by
    refine firstHtmlLang_map_attrsOnly lang _ _ attrsOnly_sortClass _ ?_ hL2
    intro attrs hl hx
    constructor
    · rw [getAttr_sortClassMap attrs "lang" (by decide)]
      exact hl
    · rw [getAttr_sortClassMap attrs "xml:lang" (by decide)]
      exact hx
  have hS3 : DocInv classSortedTok
      (((removeCommentsPass d).map collapseTok).map sortClassTok) :=
    docInv_map _ _ sortClassTok_establishes _
  have hA3 : DocInv imgAltBlankTok d → DocInv imgAltBlankTok
      (((removeCommentsPass d).map collapseTok).map sortClassTok) := by
    intro hA
    refine docInv_map_pres _ _ (attrsOnly_pres_imgAlt _ _ attrsOnly_sortClass ?_) _ (hA2 hA)
    intro attrs halt
    rw [getAttr_sortClassMap attrs "alt" (by decide)]
    exact halt
  have hC4 := docInv_map_pres _ _ (attrsOnly_pres_notCdata _ _ attrsOnly_removeRedundant) _ hC3
  have hF4 := docInv_map_pres _ _ (attrsOnly_pres_cleanFixed _ _ attrsOnly_removeRedundant) _ hF3
  have hP4 := docInv_map_pres _ _ (attrsOnly_pres_attrInv _ _ attrsOnly_removeRedundant _
    (fun n attrs hb a ha => hb a (List.mem_filter.mp ha).1)) _ hP3
  have hB4 := docInv_map_pres _ _ (attrsOnly_pres_textInv _ _ attrsOnly_removeRedundant _) _ hB3
  have hK4 := docInv_map_pres _ _ (attrsOnly_pres_textInv _ _ attrsOnly_removeRedundant _) _ hK3
  have hwf4 := docInv_map_pres _ _
    (attrsOnly_pres_wf _ _ attrsOnly_removeRedundant
      (fun n attrs h => nodup_filter_keys _ attrs h)) _ hwf3
  have hM4 := docInv_map_pres _ _ (attrsOnly_pres_notComment _ _ attrsOnly_removeRedundant) _ hM3
  have hS4 := docInv_map_pres _ _ (attrsOnly_pres_attrInv _ _ attrsOnly_removeRedundant _
    (fun n attrs hb a ha => hb a (List.mem_filter.mp ha).1)) _ hS3
  have hL4 : FirstHtmlLangSet lang
      ((((removeCommentsPass d).map collapseTok).map sortClassTok).map removeRedundantTok) := by
    refine firstHtmlLang_map_attrsOnly lang _ _ attrsOnly_removeRedundant _ ?_ hL3
    intro attrs hl hx
    constructor
    · exact getAttr_filter attrs _ "lang" lang hl (by rw [redundantAttr_html]; rfl)
    · exact getAttr_filter attrs _ "xml:lang" lang hx (by rw [redundantAttr_html]; rfl)
  have hR4 : DocInv noRedundantAttrTok
      ((((removeCommentsPass d).map collapseTok).map sortClassTok).map removeRedundantTok) :=
    docInv_map _ _ removeRedundantTok_establishes _
  have hA4 : DocInv imgAltBlankTok d → DocInv imgAltBlankTok
      ((((removeCommentsPass d).map collapseTok).map sortClassTok).map removeRedundantTok) := by
    intro hA
    refine docInv_map_pres _ _ (attrsOnly_pres_imgAlt _ _ attrsOnly_removeRedundant ?_) _ (hA3 hA)
    intro attrs halt
    exact getAttr_filter attrs _ "alt" "" halt (by rw [redundantAttr_img]; rfl)
  have hC5 := docInv_map_pres _ _ (attrsOnly_pres_notCdata _ _ attrsOnly_removeEmpty) _ hC4
  have hF5 := docInv_map_pres _ _ (attrsOnly_pres_cleanFixed _ _ attrsOnly_removeEmpty) _ hF4
  have hP5 := docInv_map_pres _ _ (attrsOnly_pres_attrInv _ _ attrsOnly_removeEmpty _
    (fun n attrs hb a ha => hb a (List.mem_filter.mp ha).1)) _ hP4
  have hB5 := docInv_map_pres _ _ (attrsOnly_pres_textInv _ _ attrsOnly_removeEmpty _) _ hB4
  have hK5 := docInv_map_pres _ _ (attrsOnly_pres_textInv _ _ attrsOnly_removeEmpty _) _ hK4
  have hwf5 := docInv_map_pres _ _
    (attrsOnly_pres_wf _ _ attrsOnly_removeEmpty
      (fun n attrs h => nodup_filter_keys _ attrs h)) _ hwf4
  have hM5 := docInv_map_pres _ _ (attrsOnly_pres_notComment _ _ attrsOnly_removeEmpty) _ hM4
  have hS5 := docInv_map_pres _ _ (attrsOnly_pres_attrInv _ _ attrsOnly_removeEmpty _
    (fun n attrs hb a ha => hb a (List.mem_filter.mp ha).1)) _ hS4
  have hR5 := docInv_map_pres _ _ (attrsOnly_pres_attrInv _ _ attrsOnly_removeEmpty _
    (fun n attrs hb a ha => hb a (List.mem_filter.mp ha).1)) _ hR4
  have hL5 : FirstHtmlLangSet lang
      (((((removeCommentsPass d).map collapseTok).map sortClassTok).map
        removeRedundantTok).map removeEmptyTok) := by
    refine firstHtmlLang_map_attrsOnly lang _ _ attrsOnly_removeEmpty _ ?_ hL4
    intro attrs hl hx
    constructor
    · refine getAttr_filter attrs _ "lang" lang hl ?_
      show (!(emptyRemovableAttrs.contains "lang" && decide (lang = ""))) = true
      rw [show emptyRemovableAttrs.contains "lang" = true from rfl, decide_eq_false hlang]
      rfl
    · refine getAttr_filter attrs _ "xml:lang" lang hx ?_
      show (!(emptyRemovableAttrs.contains "xml:lang" && decide (lang = ""))) = true
      rw [show emptyRemovableAttrs.contains "xml:lang" = false from rfl, Bool.false_and]
      rfl
  have hE5 : DocInv noEmptyListedTok
      (((((removeCommentsPass d).map collapseTok).map sortClassTok).map
        removeRedundantTok).map removeEmptyTok) :=
    docInv_map _ _ removeEmptyTok_establishes _
  have hA5 : DocInv imgAltBlankTok d → DocInv imgAltBlankTok
      (((((removeCommentsPass d).map collapseTok).map sortClassTok).map
        removeRedundantTok).map removeEmptyTok) := by
    intro hA
    refine docInv_map_pres _ _ (attrsOnly_pres_imgAlt _ _ attrsOnly_removeEmpty ?_) _ (hA4 hA)
    intro attrs halt
    refine getAttr_filter attrs _ "alt" "" halt ?_
    rw [show emptyRemovableAttrs.contains "alt" = false from rfl, Bool.false_and]
    rfl
  refine ⟨docInv_map_pres _ _ (attrsOnly_pres_notCdata _ _ attrsOnly_sortAttrs) _ hC5,
    docInv_map_pres _ _ (attrsOnly_pres_cleanFixed _ _ attrsOnly_sortAttrs) _ hF5,
    docInv_map_pres _ _ (attrsOnly_pres_attrInv _ _ attrsOnly_sortAttrs _
      (fun n attrs hb a ha => hb a ((List.mem_insertionSort attrKeyLE).mp ha))) _ hP5,
    docInv_map_pres _ _ (attrsOnly_pres_textInv _ _ attrsOnly_sortAttrs _) _ hB5,
    docInv_map_pres _ _
      (attrsOnly_pres_wf _ _ attrsOnly_sortAttrs (fun _ attrs h => nodup_sort_keys attrs h)) _ hwf5,
    firstHtmlLang_map_sortAttrs lang _ hwf5 hL5,
    docInv_map_pres _ _ (attrsOnly_pres_notComment _ _ attrsOnly_sortAttrs) _ hM5,
    docInv_map_pres _ _ (attrsOnly_pres_textInv _ _ attrsOnly_sortAttrs _) _ hK5,
    docInv_map_pres _ _ (attrsOnly_pres_attrInv _ _ attrsOnly_sortAttrs _
      (fun n attrs hb a ha => hb a ((List.mem_insertionSort attrKeyLE).mp ha))) _ hS5,
    docInv_map_pres _ _ (attrsOnly_pres_attrInv _ _ attrsOnly_sortAttrs _
      (fun n attrs hb a ha => hb a ((List.mem_insertionSort attrKeyLE).mp ha))) _ hR5,
    docInv_map_pres _ _ (attrsOnly_pres_attrInv _ _ attrsOnly_sortAttrs _
      (fun n attrs hb a ha => hb a ((List.mem_insertionSort attrKeyLE).mp ha))) _ hE5,
    docInv_map _ _ sortAttrsTok_establishes _,
    fun hA => imgAlt_map_sortAttrs _ hwf5 (hA5 hA)⟩

theorem minifyPass_fixed (d : Doc) (h5 : DocInv notCommentTok d)
    (h6 : DocInv collapseFixedTok d) (h7 : DocInv classSortedTok d)
    (h8 : DocInv noRedundantAttrTok d) (h9 : DocInv noEmptyListedTok d)
    (h10 : DocInv attrsSortedTok d) : minifyPass d = d := by
  unfold minifyPass
  rw [removeComments_fixed d h5,
    map_fixed collapseTok d (fun t ht => collapseTok_fixed t (h6 t ht)),
    map_fixed sortClassTok d (fun t ht => sortClassTok_fixed t (h7 t ht)),
    map_fixed removeRedundantTok d (fun t ht => removeRedundantTok_fixed t (h8 t ht)),
    map_fixed removeEmptyTok d (fun t ht => removeEmptyTok_fixed t (h9 t ht)),
    map_fixed sortAttrsTok d (fun t ht => sortAttrsTok_fixed t (h10 t ht))]

theorem tidyHtml_def (check : String → Bool) (d : Doc) (o : TidyOptions) :
    tidyHtml check d o =
      if check (effectiveLanguage o.language) = false then .error badRequestLanguage
      else .ok (minifyPass (tidyPass
        (if o.removeAlt then removeAltPass (setDocLang (effectiveLanguage o.language) d)
         else setDocLang (effectiveLanguage o.language) d))) := rfl

theorem foldl_rmForce (srcs : List String) : ∀ cwd : FileSys,
    srcs.foldl rmForce cwd = cwd.filter (fun g => !(srcs.contains g)) := by
  induction srcs with
  | nil =>
    intro cwd
    simp
  | cons s rest ih =>
    intro cwd
    show rest.foldl rmForce (rmForce cwd s) = _
    rw [ih (rmForce cwd s)]
    unfold rmForce
    rw [List.filter_filter]
    apply List.filter_congr
    intro x hx
    by_cases hxs : x = s
    · subst hxs
      simp
    · simp [hxs]

/-- C7: the image-removal block removes every img node from the tree,
deletes from the cwd exactly the side-files the img src attributes name (a
referenced file already absent is not an error — the operation is total and
idempotent toward an already-cleaned state), and leaves every other file
alone. -/
theorem C7_every_image_removed_with_side_file (d : Doc) (cwd : FileSys) :
    (∀ t ∈ (removeImages d cwd).1, isImgTag t = false) ∧
    (∀ t ∈ d, isImgTag t = false → t ∈ (removeImages d cwd).1) ∧
    (removeImages d cwd).2 = cwd.filter (fun g => !((imgSrcs d).contains g)) ∧
    (removeImages d ((removeImages d cwd).2)).2 = (removeImages d cwd).2 := by
  refine ⟨?_, ?_, foldl_rmForce (imgSrcs d) cwd, ?_⟩
  · intro t ht
    have h2 := (List.mem_filter.mp ht).2
    exact Bool.not_eq_true' .. ▸ h2
  · intro t ht hter
    apply List.mem_filter.mpr
    exact ⟨ht, by rw [hter]; rfl⟩
  · show (imgSrcs d).foldl rmForce (removeImages d cwd).2 = _
    rw [foldl_rmForce (imgSrcs d) ((removeImages d cwd).2),
      show (removeImages d cwd).2 = (imgSrcs d).foldl rmForce cwd from rfl,
      foldl_rmForce (imgSrcs d) cwd, List.filter_filter]
    apply List.filter_congr
    intro x hx
    rw [Bool.and_self]

/-- C8: with removeAlt set, every img element of the document gets its alt
attribute forced to the empty string — the attribute ends up present with
value "", never removed — with its other attributes and its tag untouched,
and every non-img token untouched. -/
theorem C8_removeAlt_blanks_every_img_alt (d : Doc) (attrs : List (String × String))
    (m : String) (t : Tok) (hm : m ≠ "alt") (ht : isImgTag t = false) :
    (∀ t2 ∈ removeAltPass d, ∀ n a2, t2 = Tok.tag n a2 → n = "img" →
      getAttr a2 "alt" = some "") ∧
    setImgAlt (Tok.tag "img" attrs) = Tok.tag "img" (setAttr attrs "alt" "") ∧
    getAttr (setAttr attrs "alt" "") "alt" = some "" ∧
    getAttr (setAttr attrs "alt" "") m = getAttr attrs m ∧
    setImgAlt t = t := by
  refine ⟨?_, by simp [setImgAlt], getAttr_setAttr_self attrs "alt" "",
    getAttr_setAttr_other attrs "alt" "" m hm, ?_⟩
  · intro t2 ht2 n a2 he hn
    have h2 := removeAltPass_establishes d t2 ht2
    rw [he] at h2
    exact h2 hn
  · cases t with
    | tag n a2 =>
      have hn : ¬ n = "img" := by
        intro he
        rw [show isImgTag (Tok.tag n a2) = decide (n = "img") from rfl,
          decide_eq_true he] at ht
        exact absurd ht (by decide)
      simp [setImgAlt, hn]
    | closeTag n => rfl
    | text s => rfl
    | comment s => rfl
    | cdata s => rfl

/-- Witness for C8 at a concrete document and img attribute list. -/
theorem C8_removeAlt_blanks_every_img_alt_witness :
    (∀ t2 ∈ removeAltPass [Tok.tag "img" [("src", "p.wmf"), ("alt", "x")]],
      ∀ n a2, t2 = Tok.tag n a2 → n = "img" → getAttr a2 "alt" = some "") ∧
    setImgAlt (Tok.tag "img" [("src", "p.wmf")]) =
      Tok.tag "img" (setAttr [("src", "p.wmf")] "alt" "") ∧
    getAttr (setAttr [("src", "p.wmf")] "alt" "") "alt" = some "" ∧
    getAttr (setAttr [("src", "p.wmf")] "alt" "") "src" = getAttr [("src", "p.wmf")] "src" ∧
    setImgAlt (Tok.text "y") = Tok.text "y" :=
  C8_removeAlt_blanks_every_img_alt [Tok.tag "img" [("src", "p.wmf"), ("alt", "x")]]
    [("src", "p.wmf")] "src" (Tok.text "y") (by decide) rfl

/-- C4 (amended): for every present, non-empty language option value the
registry check rejects, tidyHtml fails with a 400 Bad Request whose message
names the offending querystring.language field, and no tidied output is
produced; an absent or explicitly empty language value instead falls back to
"en" without validation of the supplied value. -/
theorem C4_invalid_language_rejected (check : String → Bool) (d : Doc)
    (o : TidyOptions) (l : String) (h1 : o.language = some l) (h2 : l ≠ "")
    (h3 : check l = false) :
    tidyHtml check d o = .error badRequestLanguage ∧
    badRequestLanguage.statusCode = 400 ∧
    List.IsInfix "language".data badRequestLanguage.message.data := by
  have he : effectiveLanguage o.language = l := by
    rw [h1]
    simp [effectiveLanguage, h2]
  refine ⟨?_, rfl, by decide⟩
  rw [tidyHtml_def, he, h3, if_pos rfl]

/-- Witness for the amended C4 at a concrete invalid tag. -/
theorem C4_invalid_language_rejected_witness :
    tidyHtml ianaCheck [Tok.tag "html" []] ⟨some "notatag", false⟩ =
      .error badRequestLanguage ∧
    badRequestLanguage.statusCode = 400 ∧
    List.IsInfix "language".data badRequestLanguage.message.data :=
  C4_invalid_language_rejected ianaCheck [Tok.tag "html" []] ⟨some "notatag", false⟩
    "notatag" rfl (by decide) rfl

/-- C4 as stated is false: the empty string is not a valid IANA language
tag, yet tidyHtml with language explicitly the empty string succeeds — the
JS falsy fallback substitutes "en" before the check runs, so no 400 is
raised and output is produced. -/
theorem C4_counterexample :
    ianaCheck "" = false ∧
    tidyHtml ianaCheck [Tok.tag "html" []] ⟨some "", false⟩ =
      .ok [Tok.tag "html" [("lang", "en"), ("xml:lang", "en")]] :=
  ⟨rfl, rfl⟩

/-- C5: for every well-formed document and fixed options that tidyHtml
accepts, the Tidy/Minify stage is idempotent — applying tidyHtml to its own
output with the same options yields that output unchanged. -/
theorem C5_tidyHtml_idempotent (check : String → Bool) (d : Doc) (o : TidyOptions)
    (r : Doc) (hwf : wfDoc d = true) (h : tidyHtml check d o = .ok r) :
    tidyHtml check r o = .ok r := by
  have hwfd : DocInv wfAttrsTok d := (wfDoc_iff d).mp hwf
  have hlang : effectiveLanguage o.language ≠ "" := effectiveLanguage_ne_empty o.language
  rw [tidyHtml_def] at h ⊢
  by_cases hc : check (effectiveLanguage o.language) = false
  · rw [if_pos hc] at h
    exact absurd h (by simp)
  · rw [if_neg hc] at h ⊢
    have hwf1 := setDocLang_pres_wf (effectiveLanguage o.language) d hwfd
    have hL1 := setDocLang_establishes (effectiveLanguage o.language) d
    by_cases hra : o.removeAlt = true
    · rw [if_pos hra] at h ⊢
      have hr := Except.ok.inj h
      have hwf2 := removeAltPass_pres_wf _ hwf1
      have hL2 := removeAltPass_pres_lang (effectiveLanguage o.language) _ hL1
      have hA2 := removeAltPass_establishes (setDocLang (effectiveLanguage o.language) d)
      obtain ⟨tC, tF, tP, tB, tW, tL, tA⟩ :=
        tidyPass_props (effectiveLanguage o.language) _ hwf2 hL2
      obtain ⟨mC, mF, mP, mB, mW, mL, mM, mK, mS, mR, mE, mSorted, mA⟩ :=
        minifyPass_props (effectiveLanguage o.language) hlang _ tW tL tC tF tP tB
      rw [← hr]
      rw [setDocLang_fixed _ _ mL, removeAltPass_fixed _ (mA (tA hA2)),
        tidyPass_fixed _ mC mF mP mB, minifyPass_fixed _ mM mK mS mR mE mSorted]
    · rw [if_neg hra] at h ⊢
      have hr := Except.ok.inj h
      obtain ⟨tC, tF, tP, tB, tW, tL, tA⟩ :=
        tidyPass_props (effectiveLanguage o.language) _ hwf1 hL1
      obtain ⟨mC, mF, mP, mB, mW, mL, mM, mK, mS, mR, mE, mSorted, mA⟩ :=
        minifyPass_props (effectiveLanguage o.language) hlang _ tW tL tC tF tP tB
      rw [← hr]
      rw [setDocLang_fixed _ _ mL, tidyPass_fixed _ mC mF mP mB,
        minifyPass_fixed _ mM mK mS mR mE mSorted]

/-- Witness for C5: tidyHtml applied to its own output at a concrete
document and options returns that output unchanged. -/
theorem C5_tidyHtml_idempotent_witness :
    tidyHtml ianaCheck [Tok.tag "html" [("lang", "en"), ("xml:lang", "en")]]
      ⟨some "en", true⟩ =
      .ok [Tok.tag "html" [("lang", "en"), ("xml:lang", "en")]] :=
  C5_tidyHtml_idempotent ianaCheck [Tok.tag "html" []] ⟨some "en", true⟩
    [Tok.tag "html" [("lang", "en"), ("xml:lang", "en")]] (by rfl) (by rfl)

end Docsmith
